import Mathlib

/-!
# ingress2vs: converting a Kubernetes Ingress into an Istio VirtualService

Shallow embedding of `main.go`.  The program is a single `main` function:

* lines 18-27   flag registration, `flag.Parse()` and the usage check,
* lines 29-47   cluster configuration, the two clients, the Ingress lookup,
* lines 49-97   construction of the VirtualService from the Ingress,
* lines 99-104  the create call and the confirmation message.

Go structs become Lean structures with the Go field names, Go pointers that
may be nil become `Option`, slices become `List`, `int32`/`uint32` become
`Int`/`Nat` with the conversion `uint32` written out, and a Go runtime panic
becomes the error side of `Except`.  The cluster and the two clients are an
environment `Env` of answers; a run is the list of calls made and the way the
process ended.
-/

namespace Ingress2VS

/-! ## Input: the `k8s.io/api/networking/v1` Ingress types -/

/-- Go `networkingv1.ServiceBackendPort`; `Number` is an `int32`. -/
structure ServiceBackendPort where
  Name : String
  Number : Int
deriving DecidableEq, Repr

/-- Go `networkingv1.IngressServiceBackend`. -/
structure IngressServiceBackend where
  Name : String
  Port : ServiceBackendPort
deriving DecidableEq, Repr

/-- Go `corev1.TypedLocalObjectReference`, the resource-typed backend. -/
structure TypedLocalObjectReference where
  APIGroup : Option String
  Kind : String
  Name : String
deriving DecidableEq, Repr

/-- Go `networkingv1.IngressBackend`: both members are pointers. -/
structure IngressBackend where
  Service : Option IngressServiceBackend
  Resource : Option TypedLocalObjectReference
deriving DecidableEq, Repr

/-- Go `networkingv1.HTTPIngressPath`. -/
structure HTTPIngressPath where
  Path : String
  PathType : Option String
  Backend : IngressBackend
deriving DecidableEq, Repr

/-- Go `networkingv1.HTTPIngressRuleValue`. -/
structure HTTPIngressRuleValue where
  Paths : List HTTPIngressPath
deriving DecidableEq, Repr

/-- Go `networkingv1.IngressRule`; `HTTP` is the pointer member of the embedded
`IngressRuleValue`. -/
structure IngressRule where
  Host : String
  HTTP : Option HTTPIngressRuleValue
deriving DecidableEq, Repr

/-- Go `networkingv1.IngressTLS`. -/
structure IngressTLS where
  Hosts : List String
  SecretName : String
deriving DecidableEq, Repr

/-- Go `networkingv1.IngressSpec`. -/
structure IngressSpec where
  IngressClassName : Option String
  DefaultBackend : Option IngressBackend
  TLS : List IngressTLS
  Rules : List IngressRule
deriving DecidableEq, Repr

/-- Go `networkingv1.Ingress` with the `ObjectMeta` members the program can
observe (`Name`, `Namespace`) and the annotation and label maps. -/
structure Ingress where
  Name : String
  Namespace : String
  Annotations : List (String × String)
  Labels : List (String × String)
  Spec : IngressSpec
deriving DecidableEq, Repr

/-! ## Output: the Istio `networking/v1alpha3` types -/

/-- Go `networkingv1alpha3.HTTPMatchRequest`; `Port` is a `uint32`. -/
structure HTTPMatchRequest where
  Port : Nat
deriving DecidableEq, Repr

/-- Go `networkingv1alpha3.PortSelector`; `Number` is a `uint32`. -/
structure PortSelector where
  Number : Nat
deriving DecidableEq, Repr

/-- Go `networkingv1alpha3.Destination`; `Port` is a pointer. -/
structure Destination where
  Host : String
  Port : Option PortSelector
deriving DecidableEq, Repr

/-- Go `networkingv1alpha3.HTTPRouteDestination`; `Destination` is a pointer. -/
structure HTTPRouteDestination where
  Destination : Option Destination
deriving DecidableEq, Repr

/-- Go `networkingv1alpha3.HTTPRedirect`. -/
structure HTTPRedirect where
  Scheme : String
deriving DecidableEq, Repr

/-- Go `networkingv1alpha3.HTTPRoute`; `Redirect` is a pointer, `Match` and
`Route` are slices. -/
structure HTTPRoute where
  Name : String
  Match : List HTTPMatchRequest
  Route : List HTTPRouteDestination
  Redirect : Option HTTPRedirect
deriving DecidableEq, Repr

/-- Go `networkingv1alpha3.VirtualService`, the `Spec` member of the object. -/
structure VirtualServiceSpec where
  Hosts : List String
  Gateways : List String
  Http : List HTTPRoute
deriving DecidableEq, Repr

/-- Go `istioNetworking.VirtualService`, the object handed to the create call. -/
structure VirtualService where
  Name : String
  Namespace : String
  Spec : VirtualServiceSpec
deriving DecidableEq, Repr

/-! ## Runtime failures -/

/-- The Go runtime panics that lines 49-97 can raise. -/
inductive RuntimePanic where
  | indexOutOfRange (index length : Nat)
  | nilDereference
deriving DecidableEq, Repr

deriving instance DecidableEq for Except

/-! ## Lines 49-97: building the VirtualService -/

/-- Go conversion `uint32(x)` of an `int32` value: the value modulo `2^32`. -/
def uint32 (x : Int) : Nat :=
  (x % 4294967296).toNat

/-- Lines 60-70: the redirect route. -/
def httpToHttpsRedirect : HTTPRoute :=
  { Match := [{ Port := 80 }]
    Name := "http-to-https"
    Redirect := some { Scheme := "https" }
    Route := [] }

/-- Lines 76-93: the route built for one path.  Reading
`path.Backend.Service.Name` through a nil `Service` pointer panics. -/
def httpRoute (path : HTTPIngressPath) : Except RuntimePanic HTTPRoute :=
  match path.Backend.Service with
  | none => .error .nilDereference
  | some service =>
    .ok { Match := [{ Port := 443 }]
          Name := "pos-bff-service"
          Route := [{ Destination := some (Destination.mk service.Name
            (some { Number := uint32 service.Port.Number })) }]
          Redirect := none }

/-- Lines 75-96: the inner loop over the paths of one rule, appending one route
per path to the routes collected so far. -/
def pathsLoop : List HTTPIngressPath → List HTTPRoute → Except RuntimePanic (List HTTPRoute)
  | [], http => .ok http
  | path :: rest, http =>
    match httpRoute path with
    | .error p => .error p
    | .ok route => pathsLoop rest (http ++ [route])

/-- Lines 74-97: the outer loop over the rules.  Reading `rule.HTTP.Paths`
through a nil `HTTP` pointer panics. -/
def rulesLoop : List IngressRule → List HTTPRoute → Except RuntimePanic (List HTTPRoute)
  | [], http => .ok http
  | rule :: rest, http =>
    match rule.HTTP with
    | none => .error .nilDereference
    | some value =>
      match pathsLoop value.Paths http with
      | .error p => .error p
      | .ok http1 => rulesLoop rest http1

/-- Lines 49-97: the object `virtualService` as it stands when the loops are
done.  `ingress.Spec.Rules[0]` panics on an empty slice. -/
def virtualService (ingress : Ingress) : Except RuntimePanic VirtualService :=
  match ingress.Spec.Rules[0]? with
  | none => .error (.indexOutOfRange 0 ingress.Spec.Rules.length)
  | some rule0 =>
    match rulesLoop ingress.Spec.Rules ([] ++ [httpToHttpsRedirect]) with
    | .error p => .error p
    | .ok http =>
      .ok { Name := ingress.Name
            Namespace := ingress.Namespace
            Spec :=
              { Hosts := [rule0.Host]
                Gateways := [ingress.Namespace ++ "/ingressgateway"]
                Http := http } }

/-! ## Lines 18-23: the flags

The program registers four string flags on two variables and calls
`flag.Parse()`.  What follows is the part of Go's standard package `flag` that
these lines exercise: `StringVar`, `FlagSet.parseOne` and `FlagSet.Parse` with
the `ExitOnError` handling of the command-line flag set.  The flags that linked
packages register on the same flag set before `main` starts are a parameter. -/

/-- The variable a flag writes to: `namespace` or `ingressName` of `main`, or a
variable of another package. -/
inductive FlagVar where
  | nsFlag
  | ingressName
  | other
deriving DecidableEq, Repr

/-- The errors of `FlagSet.parseOne`: `ErrHelp`, "bad flag syntax", "flag
provided but not defined" and "flag needs an argument". -/
inductive FlagError where
  | help
  | badSyntax (arg : String)
  | notDefined (name : String)
  | needsArgument (name : String)
deriving DecidableEq, Repr

/-- The state of the command-line flag set: the two variables, the registered
names with the variable each one writes to (`formal`), the names set so far
(`actual`) and the arguments not yet consumed (`args`). -/
structure FlagSet where
  nsFlag : String
  ingressName : String
  formal : List (String × FlagVar)
  actual : List String
  args : List String
deriving DecidableEq, Repr

/-- The flag set before any flag is registered. -/
def FlagSet.empty : FlagSet :=
  { nsFlag := "", ingressName := "", formal := [], actual := [], args := [] }

/-- Go `Value.Set` of a string flag: store `value` in the variable. -/
def FlagSet.Set (f : FlagSet) (p : FlagVar) (value : String) : FlagSet :=
  match p with
  | .nsFlag => { f with nsFlag := value }
  | .ingressName => { f with ingressName := value }
  | .other => f

/-- Go `flag.StringVar(p, name, value, usage)`: it stores the default `value` in
`*p` and registers `name` for `p`.  `flag.String(name, value, usage)` is the
same on a fresh variable. -/
def StringVar (f : FlagSet) (p : FlagVar) (name value : String) : FlagSet :=
  { f.Set p value with formal := f.formal ++ [(name, p)] }

/-- The command-line flag set when `main` starts: the packages linked into the
program have registered the flags `imported` in their initialisers (for
instance `kubeconfig`, by the `config` package imported at line 14), each for
a variable of its own. -/
def importedFlags (imported : List String) : FlagSet :=
  { FlagSet.empty with formal := imported.map (fun name => (name, FlagVar.other)) }

/-- Lines 18-21: the four registrations, in order. -/
def registeredFlags (imported : List String) : FlagSet :=
  StringVar
    (StringVar
      (StringVar
        (StringVar (importedFlags imported) .nsFlag "namespace" "")
        .ingressName "ingressname" "")
      .nsFlag "n" "default")
    .ingressName "i" ""

/-- The search of `parseOne` for the first `=` from index 1 of the name on:
applied to `name[1:]`, it gives the characters before that `=` and, when there
is one, the characters after it. -/
def splitValue : List Char → List Char × Option (List Char)
  | [] => ([], none)
  | c :: cs =>
    if c = '=' then ([], some cs)
    else (c :: (splitValue cs).1, (splitValue cs).2)

/-- The end of Go `FlagSet.parseOne`, for a string flag `name` registered for the
variable `p`: the value is what followed `=`, or else the next argument, and a
flag without either is an error.  The flag is then recorded in `actual`. -/
def parseValue (f : FlagSet) (rest : List String) (name : String) (p : FlagVar)
    (joined : Option (List Char)) : Except FlagError (Bool × FlagSet) :=
  match joined, rest with
  | some value, _ =>
    .ok (true, { f.Set p (String.mk value) with
      args := rest
      actual := f.actual ++ [name] })
  | none, value :: rest1 =>
    .ok (true, { f.Set p value with
      args := rest1
      actual := f.actual ++ [name] })
  | none, [] => .error (.needsArgument name)

/-- The middle of Go `FlagSet.parseOne`, on the argument `s` without its dashes:
the syntax check, the split at the first `=` and the lookup of the name among
the registered flags, where `help` and `h` are special when not registered. -/
def parseName (f : FlagSet) (s : String) (rest : List String) (name : List Char) :
    Except FlagError (Bool × FlagSet) :=
  match name with
  | [] => .error (.badSyntax s)
  | n0 :: ns =>
    if n0 = '-' ∨ n0 = '=' then .error (.badSyntax s)
    else
      match f.formal.lookup (String.mk (n0 :: (splitValue ns).1)) with
      | none =>
        if String.mk (n0 :: (splitValue ns).1) = "help" ∨
            String.mk (n0 :: (splitValue ns).1) = "h" then .error .help
        else .error (.notDefined (String.mk (n0 :: (splitValue ns).1)))
      | some p => parseValue f rest (String.mk (n0 :: (splitValue ns).1)) p (splitValue ns).2

/-- Go `FlagSet.parseOne` for a flag set with string flags only.  The result is
`seen` with the new state, or the error.  An argument shorter than two
characters or not starting with `-` ends the flags, and so does `--`, which is
consumed. -/
def parseOne (f : FlagSet) : Except FlagError (Bool × FlagSet) :=
  match f.args with
  | [] => .ok (false, f)
  | s :: rest =>
    match s.toList with
    | c0 :: c1 :: cs =>
      if c0 ≠ '-' then .ok (false, f)
      else if c1 = '-' ∧ cs = [] then .ok (false, { f with args := rest })
      else parseName f s rest (if c1 = '-' then cs else c1 :: cs)
    | _ => .ok (false, f)

/-- The loop of Go `FlagSet.Parse`: `parseOne` is repeated while it reports a
flag seen.  `none` means that the fuel ran out. -/
def parseLoop : Nat → FlagSet → Option (Except FlagError FlagSet)
  | 0, _ => none
  | fuel + 1, f =>
    match parseOne f with
    | .error err => some (.error err)
    | .ok (false, f1) => some (.ok f1)
    | .ok (true, f1) => parseLoop fuel f1

/-- Line 23, `flag.Parse()`, on the arguments after the program name.  Every
flag seen consumes an argument, so one step more than there are arguments is
enough fuel. -/
def Parse (f : FlagSet) (arguments : List String) : Option (Except FlagError FlagSet) :=
  parseLoop (arguments.length + 1) { f with args := arguments }

/-! ## Lines 25-104: the run around the mapping -/

/-- A call made to one of the external collaborators. -/
inductive Call where
  | GetConfig
  | KubernetesNewForConfig
  | IstioNewForConfig
  | IngressesGet (ns name : String)
  | VirtualServicesCreate (ns : String) (vs : VirtualService)
deriving DecidableEq, Repr

/-- How the process ends: `returned` is the normal return of `main` after the
confirmation line, `fatal` is `log.Fatalf` (message, exit status 1),
`panicked` is an uncaught runtime panic, and `flagExit` is the `os.Exit` inside
`flag.Parse()` after `parseOne` reported an error. -/
inductive Exit where
  | returned (stdout : String)
  | fatal (message : String)
  | panicked (p : RuntimePanic)
  | flagExit (err : FlagError)
deriving DecidableEq, Repr

/-- The calls made, oldest first, and the way the process ended. -/
structure Run where
  calls : List Call
  exit : Exit
deriving DecidableEq, Repr

/-- The answers of the external collaborators; a Go `error` is its message.
`ImportedFlags` are the flag names that linked packages have registered before
`main` starts; none of them is one of the four names of lines 18-21, since
registering a name twice panics. -/
structure Env where
  Args0 : String
  ImportedFlags : List String
  ImportedDistinct : ∀ name ∈ ["namespace", "ingressname", "n", "i"], name ∉ ImportedFlags
  GetConfig : Except String Unit
  KubernetesNewForConfig : Except String Unit
  IstioNewForConfig : Except String Unit
  IngressesGet : String → String → Except String Ingress
  VirtualServicesCreate : String → VirtualService → Except String Unit

/-- Lines 25-104 of `main`, given the values `nsFlag` and `ingressName` that the
two flag variables hold after `flag.Parse()`. -/
def main (env : Env) (nsFlag ingressName : String) : Run :=
  if nsFlag = "" ∨ ingressName = "" then
    { calls := []
      exit := .fatal ("Usage: " ++ env.Args0 ++
        " --namespace <namespace> --ingressname <ingressname>") }
  else
    match env.GetConfig with
    | .error err =>
      { calls := [.GetConfig]
        exit := .fatal ("Error getting Kubernetes config: " ++ err) }
    | .ok _ =>
    match env.KubernetesNewForConfig with
    | .error err =>
      { calls := [.GetConfig, .KubernetesNewForConfig]
        exit := .fatal ("Error creating Kubernetes client: " ++ err) }
    | .ok _ =>
    match env.IstioNewForConfig with
    | .error err =>
      { calls := [.GetConfig, .KubernetesNewForConfig, .IstioNewForConfig]
        exit := .fatal ("Error creating Istio client: " ++ err) }
    | .ok _ =>
    match env.IngressesGet nsFlag ingressName with
    | .error err =>
      { calls := [.GetConfig, .KubernetesNewForConfig, .IstioNewForConfig,
          .IngressesGet nsFlag ingressName]
        exit := .fatal ("Error getting Ingress resource: " ++ err) }
    | .ok ingress =>
    match virtualService ingress with
    | .error p =>
      { calls := [.GetConfig, .KubernetesNewForConfig, .IstioNewForConfig,
          .IngressesGet nsFlag ingressName]
        exit := .panicked p }
    | .ok vs =>
    match env.VirtualServicesCreate nsFlag vs with
    | .error err =>
      { calls := [.GetConfig, .KubernetesNewForConfig, .IstioNewForConfig,
          .IngressesGet nsFlag ingressName, .VirtualServicesCreate nsFlag vs]
        exit := .fatal ("Error creating VirtualService resource: " ++ err) }
    | .ok _ =>
      { calls := [.GetConfig, .KubernetesNewForConfig, .IstioNewForConfig,
          .IngressesGet nsFlag ingressName, .VirtualServicesCreate nsFlag vs]
        exit := .returned ("Successfully created VirtualService " ++ vs.Name ++
          " in namespace " ++ vs.Namespace ++ "\n") }

/-- The exit status of the process: 0 on return, 1 after `log.Fatalf`, 2 after a
runtime panic; `flag.Parse()` on the `ExitOnError` flag set exits with 0 on
`ErrHelp` (Go 1.15 and later) and with 2 on every other error. -/
def Exit.status : Exit → Nat
  | .returned _ => 0
  | .fatal _ => 1
  | .panicked _ => 2
  | .flagExit .help => 0
  | .flagExit _ => 2

/-- Lines 18-104, the whole of `main`, on the arguments after the program name.
`none` only if `Parse` ran out of fuel. -/
def mainOnArgs (env : Env) (args : List String) : Option Run :=
  match Parse (registeredFlags env.ImportedFlags) args with
  | none => none
  | some (.error err) => some { calls := [], exit := .flagExit err }
  | some (.ok f) => some (main env f.nsFlag f.ingressName)

/-! ## Vocabulary of the statements -/

/-- The path list of a rule; a rule without an `HTTP` section has none. -/
def rulePaths (rule : IngressRule) : List HTTPIngressPath :=
  match rule.HTTP with
  | none => []
  | some value => value.Paths

/-- The paths of an Ingress, rule after rule, each rule in path order. -/
def flatPaths (ingress : Ingress) : List HTTPIngressPath :=
  (ingress.Spec.Rules.map rulePaths).flatten

/-- The service backends of the paths of an Ingress, in the order of
`flatPaths`. -/
def flatServices (ingress : Ingress) : List IngressServiceBackend :=
  (flatPaths ingress).filterMap (fun path => path.Backend.Service)

/-- The proxy route for a service backend, as lines 76-93 write it. -/
def proxyRoute (service : IngressServiceBackend) : HTTPRoute :=
  { Name := "pos-bff-service"
    Match := [{ Port := 443 }]
    Redirect := none
    Route := [{ Destination := some (Destination.mk service.Name
      (some { Number := uint32 service.Port.Number })) }] }

/-- Every path of the list has a service backend. -/
def pathsHaveService (paths : List HTTPIngressPath) : Bool :=
  paths.all (fun path => path.Backend.Service.isSome)

/-- The rule has an `HTTP` section and each of its paths a service backend. -/
def ruleReadable (rule : IngressRule) : Bool :=
  match rule.HTTP with
  | none => false
  | some value => pathsHaveService value.Paths

/-- A path with a service backend and nothing else set. -/
def servicePath (name : String) (port : Int) : HTTPIngressPath :=
  { Path := ""
    PathType := none
    Backend := { Service := some { Name := name, Port := { Name := "", Number := port } }
                 Resource := none } }

/-- A path with a resource-typed backend and no service. -/
def resourcePath (kind name : String) : HTTPIngressPath :=
  { Path := ""
    PathType := none
    Backend := { Service := none
                 Resource := some { APIGroup := none, Kind := kind, Name := name } } }

/-- An Ingress with the given identity and rules and nothing else set. -/
def ingressOf (name ns : String) (rules : List IngressRule) : Ingress :=
  { Name := name
    Namespace := ns
    Annotations := []
    Labels := []
    Spec := { IngressClassName := none, DefaultBackend := none, TLS := [], Rules := rules } }

/-- The Ingress of the scenario in section 8 of the specification. -/
def shopIngress : Ingress :=
  ingressOf "shop" "prod"
    [{ Host := "shop.example.com"
       HTTP := some { Paths := [servicePath "cart" 8080, servicePath "catalog" 8081] } }]

/-- A cluster in which configuration and both clients are available, every
lookup returns `ingress`, and every create succeeds. -/
def clusterWith (ingress : Ingress) : Env :=
  { Args0 := "ingress2vs"
    ImportedFlags := ["kubeconfig"]
    ImportedDistinct := by decide
    GetConfig := .ok ()
    KubernetesNewForConfig := .ok ()
    IstioNewForConfig := .ok ()
    IngressesGet := fun _ _ => .ok ingress
    VirtualServicesCreate := fun _ _ => .ok () }

/-- One rule, one path, whose backend port number is `-1`. -/
def negativePortIngress : Ingress :=
  ingressOf "web" "prod"
    [{ Host := "web.example.com", HTTP := some { Paths := [servicePath "web" (-1)] } }]

/-- Two rules with different hosts and one path each. -/
def twoRuleIngress : Ingress :=
  ingressOf "api" "staging"
    [{ Host := "api.example.com", HTTP := some { Paths := [servicePath "users" 9000] } },
     { Host := "admin.example.com", HTTP := some { Paths := [servicePath "admin" 9001] } }]

/-- The VirtualService that `twoRuleIngress` is turned into. -/
def twoRuleVirtualService : VirtualService :=
  { Name := "api"
    Namespace := "staging"
    Spec :=
      { Hosts := ["api.example.com"]
        Gateways := ["staging/ingressgateway"]
        Http :=
          [{ Name := "http-to-https", Match := [{ Port := 80 }],
             Redirect := some { Scheme := "https" }, Route := [] },
           { Name := "pos-bff-service", Match := [{ Port := 443 }], Redirect := none,
             Route := [{ Destination := some (Destination.mk "users" (some { Number := 9000 })) }] },
           { Name := "pos-bff-service", Match := [{ Port := 443 }], Redirect := none,
             Route := [{ Destination := some (Destination.mk "admin" (some { Number := 9001 })) }] }] } }

/-- An Ingress without rules. -/
def emptyRulesIngress : Ingress :=
  ingressOf "shop" "prod" []

/-- One rule whose host is the empty string, with one path to a service. -/
def emptyHostIngress : Ingress :=
  ingressOf "shop" "prod"
    [{ Host := "", HTTP := some { Paths := [servicePath "cart" 8080] } }]

/-- One rule whose only path has a resource-typed backend. -/
def resourceBackendIngress : Ingress :=
  ingressOf "assets" "prod"
    [{ Host := "assets.example.com",
       HTTP := some { Paths := [resourcePath "StorageBucket" "static"] } }]

/-- Well-formed input: the rule list is non-empty, the first host is non-empty,
every rule has an HTTP section and every path a service backend. -/
def wellFormed (ingress : Ingress) : Bool :=
  (match ingress.Spec.Rules[0]? with
    | none => false
    | some rule0 => decide (rule0.Host ≠ "")) &&
  ingress.Spec.Rules.all (fun rule => rule.HTTP.isSome) &&
  (flatPaths ingress).all (fun path => path.Backend.Service.isSome)

/-- The flattened sequence of (backend service name, backend service port)
pairs of an Ingress. -/
def servicePairs (ingress : Ingress) : List (String × Int) :=
  (flatServices ingress).map (fun service => (service.Name, service.Port.Number))

/-- The two paths of `twoRuleIngress` under one rule, with path strings, path
types and a named port. -/
def usersAndAdminRule : IngressRule :=
  { Host := "api.example.com",
    HTTP := some { Paths :=
      [{ Path := "/users", PathType := some "Prefix",
         Backend := { Service := some { Name := "users", Port := { Name := "http", Number := 9000 } },
                      Resource := none } },
       { Path := "/admin", PathType := some "Exact",
         Backend := { Service := some { Name := "admin", Port := { Name := "", Number := 9001 } },
                      Resource := none } }] } }

/-- The rule `usersAndAdminRule` followed by a rule with another host and an
empty path list, with TLS, an annotation and a label. -/
def regroupedIngress : Ingress :=
  { Name := "api"
    Namespace := "staging"
    Annotations := [("kubernetes.io/ingress.class", "nginx")]
    Labels := [("team", "platform")]
    Spec :=
      { IngressClassName := some "nginx"
        DefaultBackend := none
        TLS := [{ Hosts := ["api.example.com"], SecretName := "api-tls" }]
        Rules :=
          [usersAndAdminRule,
           { Host := "unused.example.com", HTTP := some { Paths := [] } }] } }

/-- A first rule with one path, then a rule without an HTTP section. -/
def nilHTTPIngress : Ingress :=
  ingressOf "shop" "prod"
    [{ Host := "shop.example.com", HTTP := some { Paths := [servicePath "cart" 8080] } },
     { Host := "static.example.com", HTTP := none }]

/-- A cluster like `clusterWith`, except that every lookup fails with the
given error. -/
def clusterWithout (err : String) : Env :=
  { Args0 := "ingress2vs"
    ImportedFlags := ["kubeconfig"]
    ImportedDistinct := by decide
    GetConfig := .ok ()
    KubernetesNewForConfig := .ok ()
    IstioNewForConfig := .ok ()
    IngressesGet := fun _ _ => .error err
    VirtualServicesCreate := fun _ _ => .ok () }

/-- The usage line of line 26. -/
def usageMessage (env : Env) : String :=
  "Usage: " ++ env.Args0 ++ " --namespace <namespace> --ingressname <ingressname>"

/-- One flag as it is written on a command line: with one or two dashes, and
with its value joined by `=` or given as the next argument. -/
structure FlagArg where
  twoDashes : Bool
  name : String
  joined : Bool
  value : String
deriving DecidableEq, Repr

/-- The dashes in front of a flag name. -/
def dashes (twoDashes : Bool) : String :=
  if twoDashes then "--" else "-"

/-- The one or two arguments a flag is written as. -/
def FlagArg.render (x : FlagArg) : List String :=
  if x.joined then [dashes x.twoDashes ++ x.name ++ "=" ++ x.value]
  else [dashes x.twoDashes ++ x.name, x.value]

/-- A command line: the given flags, in order, and then `rest`. -/
def commandLine (flags : List FlagArg) (rest : List String) : List String :=
  (flags.map FlagArg.render).flatten ++ rest

/-- The name can be written as a flag: it is not empty, does not begin with `-`
or `=`, and has no `=` further on. -/
def flagNameOK (name : String) : Bool :=
  match name.data with
  | [] => false
  | n0 :: ns => decide (n0 ≠ '-') && decide (n0 ≠ '=') && decide ('=' ∉ ns)

/-- The arguments after the flags: there are none, or the first of them is
`--`, or it is not a dash followed by at least one more character. -/
def endsFlags : List String → Bool
  | [] => true
  | s :: _ =>
    match s.data with
    | c0 :: c1 :: cs => decide (c0 ≠ '-') || (decide (c1 = '-') && decide (cs = []))
    | _ => true

/-- The flag is one of the two that name the namespace. -/
def FlagArg.isNamespace (x : FlagArg) : Bool :=
  x.name = "namespace" || x.name = "n"

/-- The flag is one of the two that name the Ingress. -/
def FlagArg.isIngressName (x : FlagArg) : Bool :=
  x.name = "ingressname" || x.name = "i"

/-- The value of the last flag of the list that satisfies `pick`, or `initial`
when there is none. -/
def lastValue (pick : FlagArg → Bool) (initial : String) : List FlagArg → String
  | [] => initial
  | x :: xs => lastValue pick (if pick x then x.value else initial) xs

/-- The namespace of a lookup or create call. -/
def Call.namespaceUsed : Call → Option String
  | .IngressesGet ns _ => some ns
  | .VirtualServicesCreate ns _ => some ns
  | _ => none

/-- The call is a create call of the Sink. -/
def Call.isCreate : Call → Bool
  | .VirtualServicesCreate _ _ => true
  | _ => false

/-! ## The loops in closed form -/

theorem pathsLoop_eq (paths : List HTTPIngressPath) (http : List HTTPRoute) :
    pathsLoop paths http =
      if pathsHaveService paths then
        .ok (http ++ (paths.filterMap (fun path => path.Backend.Service)).map proxyRoute)
      else .error .nilDereference := by
  induction paths generalizing http with
  | nil => simp [pathsLoop, pathsHaveService]
  | cons path rest ih =>
    cases hs : path.Backend.Service with
    | none => simp [pathsLoop, httpRoute, hs, pathsHaveService]
    | some service =>
      simp only [pathsLoop, httpRoute, hs, ih]
      simp [pathsHaveService, hs, proxyRoute]

theorem rulesLoop_eq (rules : List IngressRule) (http : List HTTPRoute) :
    rulesLoop rules http =
      if rules.all ruleReadable then
        .ok (http ++ (((rules.map rulePaths).flatten).filterMap
          (fun path => path.Backend.Service)).map proxyRoute)
      else .error .nilDereference := by
  induction rules generalizing http with
  | nil => simp [rulesLoop]
  | cons rule rest ih =>
    cases hh : rule.HTTP with
    | none => simp [rulesLoop, hh, ruleReadable]
    | some value =>
      simp only [rulesLoop, hh, pathsLoop_eq]
      by_cases hp : pathsHaveService value.Paths
      · simp [hp, ih, ruleReadable, hh, rulePaths]
      · simp [hp, ruleReadable, hh]

theorem virtualService_eq (ingress : Ingress) :
    virtualService ingress =
      match ingress.Spec.Rules with
      | [] => .error (.indexOutOfRange 0 0)
      | rule0 :: _ =>
        if ingress.Spec.Rules.all ruleReadable then
          .ok { Name := ingress.Name
                Namespace := ingress.Namespace
                Spec :=
                  { Hosts := [rule0.Host]
                    Gateways := [ingress.Namespace ++ "/ingressgateway"]
                    Http := httpToHttpsRedirect :: (flatServices ingress).map proxyRoute } }
        else .error .nilDereference := by
  unfold virtualService
  cases hr : ingress.Spec.Rules with
  | nil => simp
  | cons rule0 rest =>
    simp only [List.getElem?_cons_zero, rulesLoop_eq, flatServices, flatPaths, hr]
    by_cases hall : (rule0 :: rest).all ruleReadable = true
    · simp only [hall, if_true]
      simp
    · simp only [hall]
      simp

/-- The create calls of a run: each one passes the namespace flag and the
VirtualService built from the Ingress that the lookup returned. -/
theorem main_create_calls (env : Env) (nsFlag ingressName : String) (call : Call)
    (hmem : call ∈ (main env nsFlag ingressName).calls) (hcreate : call.isCreate = true) :
    ∃ ingress vs, env.IngressesGet nsFlag ingressName = .ok ingress ∧
      virtualService ingress = .ok vs ∧ call = .VirtualServicesCreate nsFlag vs := by
  unfold main at hmem
  split_ifs at hmem with husage
  · simp at hmem
  · cases h1 : env.GetConfig with
    | error err => simp [h1] at hmem; subst hmem; simp [Call.isCreate] at hcreate
    | ok _ =>
    cases h2 : env.KubernetesNewForConfig with
    | error err =>
      simp [h1, h2] at hmem
      rcases hmem with h | h <;> subst h <;> simp [Call.isCreate] at hcreate
    | ok _ =>
    cases h3 : env.IstioNewForConfig with
    | error err =>
      simp [h1, h2, h3] at hmem
      rcases hmem with h | h | h <;> subst h <;> simp [Call.isCreate] at hcreate
    | ok _ =>
    cases hget : env.IngressesGet nsFlag ingressName with
    | error err =>
      simp [h1, h2, h3, hget] at hmem
      rcases hmem with h | h | h | h <;> subst h <;> simp [Call.isCreate] at hcreate
    | ok ingress =>
    cases hvs : virtualService ingress with
    | error p =>
      simp [h1, h2, h3, hget, hvs] at hmem
      rcases hmem with h | h | h | h <;> subst h <;> simp [Call.isCreate] at hcreate
    | ok vs =>
      refine ⟨ingress, vs, rfl, hvs, ?_⟩
      cases hcr : env.VirtualServicesCreate nsFlag vs with
      | error err =>
        simp [h1, h2, h3, hget, hvs, hcr] at hmem
        rcases hmem with h | h | h | h | h <;> first | exact h | (subst h; simp [Call.isCreate] at hcreate)
      | ok _ =>
        simp [h1, h2, h3, hget, hvs, hcr] at hmem
        rcases hmem with h | h | h | h | h <;> first | exact h | (subst h; simp [Call.isCreate] at hcreate)

/-- A run whose lookup returned an Ingress on which the mapping panics makes no
create call. -/
theorem main_no_create_of_panic (env : Env) (nsFlag ingressName : String)
    (ingress : Ingress) (p : RuntimePanic)
    (hget : env.IngressesGet nsFlag ingressName = .ok ingress)
    (hpanic : virtualService ingress = .error p) :
    ∀ call ∈ (main env nsFlag ingressName).calls, call.isCreate = false := by
  intro call hmem
  cases hc : call.isCreate with
  | false => rfl
  | true =>
    obtain ⟨ingress1, vs1, hget1, hok1, -⟩ :=
      main_create_calls env nsFlag ingressName call hmem hc
    rw [hget] at hget1
    obtain rfl := Except.ok.inj hget1
    rw [hpanic] at hok1
    cases hok1

/-- A run that reaches the mapping with an Ingress on which it panics ends with
that panic. -/
theorem main_exit_of_panic (env : Env) (nsFlag ingressName : String)
    (ingress : Ingress) (p : RuntimePanic)
    (hns : nsFlag ≠ "") (hname : ingressName ≠ "")
    (hconfig : env.GetConfig = .ok ()) (hk8s : env.KubernetesNewForConfig = .ok ())
    (histio : env.IstioNewForConfig = .ok ())
    (hget : env.IngressesGet nsFlag ingressName = .ok ingress)
    (hpanic : virtualService ingress = .error p) :
    (main env nsFlag ingressName).exit = .panicked p := by
  unfold main
  rw [if_neg (by simp [hns, hname])]
  simp only [hconfig, hk8s, histio, hget, hpanic]

theorem map_service_eq_of_all_isSome (paths : List HTTPIngressPath)
    (hservice : ∀ path ∈ paths, path.Backend.Service.isSome = true) :
    paths.map (fun path => path.Backend.Service) =
      (paths.filterMap (fun path => path.Backend.Service)).map some := by
  induction paths with
  | nil => rfl
  | cons path rest ih =>
    have hrest : ∀ q ∈ rest, q.Backend.Service.isSome = true :=
      fun q hq => hservice q (List.mem_cons_of_mem _ hq)
    have hhead := hservice path (List.mem_cons_self _ _)
    cases hs : path.Backend.Service with
    | none => simp [hs] at hhead
    | some service => simp [hs, ih hrest]

theorem all_ruleReadable_iff (rules : List IngressRule) :
    rules.all ruleReadable = true ↔
      (∀ rule ∈ rules, rule.HTTP.isSome = true) ∧
      (∀ path ∈ (rules.map rulePaths).flatten, path.Backend.Service.isSome = true) := by
  induction rules with
  | nil => simp
  | cons rule rest ih =>
    rw [List.all_cons, Bool.and_eq_true, ih]
    cases hh : rule.HTTP with
    | none => simp [ruleReadable, hh]
    | some value =>
      simp only [ruleReadable, hh, pathsHaveService, List.all_eq_true, rulePaths,
        List.map_cons, List.flatten_cons, List.mem_append, List.mem_cons]
      constructor
      · rintro ⟨h1, h2, h3⟩
        refine ⟨?_, ?_⟩
        · rintro r (rfl | hr)
          · simp [hh]
          · exact h2 r hr
        · rintro q (hq | hq)
          · exact h1 q hq
          · exact h3 q hq
      · rintro ⟨h1, h2⟩
        exact ⟨fun q hq => h2 q (Or.inl hq), fun r hr => h1 r (Or.inr hr),
          fun q hq => h2 q (Or.inr hq)⟩

/-- What a returned VirtualService says about the Ingress it came from. -/
theorem virtualService_ok (ingress : Ingress) (vs : VirtualService)
    (hok : virtualService ingress = .ok vs) :
    ∃ rule0 rest, ingress.Spec.Rules = rule0 :: rest ∧
      ingress.Spec.Rules.all ruleReadable = true ∧
      vs = { Name := ingress.Name
             Namespace := ingress.Namespace
             Spec :=
               { Hosts := [rule0.Host]
                 Gateways := [ingress.Namespace ++ "/ingressgateway"]
                 Http := httpToHttpsRedirect :: (flatServices ingress).map proxyRoute } } := by
  rw [virtualService_eq] at hok
  cases hr : ingress.Spec.Rules with
  | nil => simp [hr] at hok
  | cons rule0 rest =>
    simp only [hr] at hok
    by_cases hall : (rule0 :: rest).all ruleReadable = true
    · rw [if_pos hall] at hok
      exact ⟨rule0, rest, rfl, hall, (Except.ok.inj hok).symm⟩
    · rw [if_neg hall] at hok
      cases hok

/-- A readable, non-empty rule list is turned into a VirtualService. -/
theorem virtualService_returns (ingress : Ingress) (hrules : ingress.Spec.Rules ≠ [])
    (hall : ingress.Spec.Rules.all ruleReadable = true) :
    ∃ vs, virtualService ingress = .ok vs := by
  rw [virtualService_eq]
  cases hr : ingress.Spec.Rules with
  | nil => exact absurd hr hrules
  | cons rule0 rest =>
    rw [hr] at hall
    simp only [if_pos hall]
    exact ⟨_, rfl⟩

/-- The number of routes of a returned VirtualService. -/
theorem virtualService_route_count (ingress : Ingress) (vs : VirtualService)
    (hok : virtualService ingress = .ok vs) :
    vs.Spec.Http.length =
      1 + (ingress.Spec.Rules.map (fun rule => (rulePaths rule).length)).sum := by
  obtain ⟨rule0, rest, -, hall, hvs⟩ := virtualService_ok ingress vs hok
  have hservice := ((all_ruleReadable_iff _).1 hall).2
  have hlen := congrArg List.length (map_service_eq_of_all_isSome _ hservice)
  simp only [List.length_map, List.length_flatten, List.map_map] at hlen
  subst hvs
  simp only [List.length_cons, List.length_map, flatServices, flatPaths]
  rw [← hlen]
  rw [Nat.add_comm]
  rfl

theorem uint32_of_nonneg (x : Int) (h0 : 0 ≤ x) (h1 : x < 2147483648) :
    ((uint32 x : Nat) : Int) = x := by
  unfold uint32
  omega

/-! ## C1: the routes after the redirect follow the flattened paths -/

/-- C1, counterexample: on an Ingress with one rule and one path whose backend
port number is `-1`, the rules are non-empty and every path has a service
backend, a VirtualService is produced, and yet the route at index 1 carries
the port number 4294967295: it is not a proxy route whose destination port
number is the backend port of path 0. -/
theorem C1_negative_port_is_not_copied :
    negativePortIngress.Spec.Rules ≠ [] ∧
    (∀ path ∈ flatPaths negativePortIngress, path.Backend.Service.isSome = true) ∧
    ∃ vs, virtualService negativePortIngress = .ok vs ∧
      vs.Spec.Http[1]? = some
        { Name := "pos-bff-service", Match := [{ Port := 443 }], Redirect := none,
          Route := [{ Destination := some (Destination.mk "web"
            (some { Number := 4294967295 })) }] } ∧
      ¬ ∀ k path, (flatPaths negativePortIngress)[k]? = some path →
        ∃ service, ∃ number : Nat, path.Backend.Service = some service ∧
          (number : Int) = service.Port.Number ∧
          vs.Spec.Http[k + 1]? = some
            { Name := "pos-bff-service", Match := [{ Port := 443 }], Redirect := none,
              Route := [{ Destination := some (Destination.mk service.Name
                (some { Number := number })) }] } := by
  refine ⟨by decide, by decide, _, rfl, by decide, ?_⟩
  intro hall
  obtain ⟨service, number, hs, hn, -⟩ := hall 0 (servicePath "web" (-1)) rfl
  have hservice : service.Port.Number = -1 := by
    simp only [servicePath, Option.some.injEq] at hs
    rw [← hs]
  omega

/-- C1 (amended): for an Ingress whose rules are non-empty and whose every path
has a service backend, a VirtualService is produced as soon as every rule has
an HTTP section, and in every VirtualService produced the routes are the
redirect followed by one proxy route per flattened path, in order: the route
at index k+1 has name "pos-bff-service", one match on port 443, no redirect,
and one destination whose host is the backend service name of path k and whose
port number is `uint32` of its backend port, which is the port itself when it
lies in 0 .. 2^31 - 1. -/
theorem C1_routes_follow_flattened_paths (ingress : Ingress)
    (hrules : ingress.Spec.Rules ≠ [])
    (hservice : ∀ path ∈ flatPaths ingress, path.Backend.Service.isSome = true) :
    ((∀ rule ∈ ingress.Spec.Rules, rule.HTTP.isSome = true) →
      ∃ vs, virtualService ingress = .ok vs) ∧
    ∀ vs, virtualService ingress = .ok vs →
      vs.Spec.Http = httpToHttpsRedirect :: (flatServices ingress).map proxyRoute ∧
      (flatPaths ingress).map (fun path => path.Backend.Service) =
        (flatServices ingress).map some ∧
      ∀ k path, (flatPaths ingress)[k]? = some path →
        ∃ service, path.Backend.Service = some service ∧
          vs.Spec.Http[k + 1]? = some
            { Name := "pos-bff-service", Match := [{ Port := 443 }], Redirect := none,
              Route := [{ Destination := some (Destination.mk service.Name
                (some { Number := uint32 service.Port.Number })) }] } ∧
          (0 ≤ service.Port.Number → service.Port.Number < 2147483648 →
            ((uint32 service.Port.Number : Nat) : Int) = service.Port.Number) := by
  have hmap : (flatPaths ingress).map (fun path => path.Backend.Service) =
      (flatServices ingress).map some :=
    map_service_eq_of_all_isSome (flatPaths ingress) hservice
  refine ⟨fun hhttp => virtualService_returns ingress hrules
    ((all_ruleReadable_iff _).2 ⟨hhttp, hservice⟩), ?_⟩
  intro vs hok
  obtain ⟨rule0, rest, -, -, hvs⟩ := virtualService_ok ingress vs hok
  subst hvs
  refine ⟨rfl, hmap, ?_⟩
  intro k path hk
  have hidx : ((flatPaths ingress).map (fun path => path.Backend.Service))[k]? =
      some path.Backend.Service := by
    rw [List.getElem?_map, hk]; rfl
  rw [hmap, List.getElem?_map] at hidx
  cases hsk : (flatServices ingress)[k]? with
  | none => rw [hsk] at hidx; cases hidx
  | some service =>
    rw [hsk] at hidx
    simp only [Option.map_some', Option.some.injEq] at hidx
    refine ⟨service, hidx.symm, ?_, uint32_of_nonneg _⟩
    simp only [List.getElem?_cons_succ, List.getElem?_map, hsk]
    rfl

/-- C1, witness: the amended statement applied to the Ingress whose only
backend port is `-1`. -/
theorem C1_routes_follow_flattened_paths_witness :
    negativePortIngress.Spec.Rules ≠ [] ∧
    (∀ path ∈ flatPaths negativePortIngress, path.Backend.Service.isSome = true) ∧
    (((∀ rule ∈ negativePortIngress.Spec.Rules, rule.HTTP.isSome = true) →
      ∃ vs, virtualService negativePortIngress = .ok vs) ∧
    ∀ vs, virtualService negativePortIngress = .ok vs →
      vs.Spec.Http = httpToHttpsRedirect :: (flatServices negativePortIngress).map proxyRoute ∧
      (flatPaths negativePortIngress).map (fun path => path.Backend.Service) =
        (flatServices negativePortIngress).map some ∧
      ∀ k path, (flatPaths negativePortIngress)[k]? = some path →
        ∃ service, path.Backend.Service = some service ∧
          vs.Spec.Http[k + 1]? = some
            { Name := "pos-bff-service", Match := [{ Port := 443 }], Redirect := none,
              Route := [{ Destination := some (Destination.mk service.Name
                (some { Number := uint32 service.Port.Number })) }] } ∧
          (0 ≤ service.Port.Number → service.Port.Number < 2147483648 →
            ((uint32 service.Port.Number : Nat) : Int) = service.Port.Number)) :=
  ⟨by decide, by decide,
    C1_routes_follow_flattened_paths negativePortIngress (by decide) (by decide)⟩

/-! ## C2: the number of routes -/

/-- C2: for an Ingress with at least one rule and at least one path in every
rule, a VirtualService is produced as soon as every path has a service
backend, and every VirtualService produced has 1 plus the total number of
paths as its number of routes; with two rules of one path each that is 3. -/
theorem C2_route_count (ingress : Ingress)
    (hrules : ingress.Spec.Rules ≠ [])
    (hpaths : ∀ rule ∈ ingress.Spec.Rules, 1 ≤ (rulePaths rule).length) :
    ((∀ path ∈ flatPaths ingress, path.Backend.Service.isSome = true) →
      ∃ vs, virtualService ingress = .ok vs) ∧
    ∀ vs, virtualService ingress = .ok vs →
      vs.Spec.Http.length =
        1 + (ingress.Spec.Rules.map (fun rule => (rulePaths rule).length)).sum ∧
      (∀ rule1 rule2, ingress.Spec.Rules = [rule1, rule2] →
        (rulePaths rule1).length = 1 → (rulePaths rule2).length = 1 →
        vs.Spec.Http.length = 3) := by
  refine ⟨fun hservice => virtualService_returns ingress hrules
    ((all_ruleReadable_iff _).2 ⟨?_, hservice⟩), ?_⟩
  · intro rule hrule
    have hone := hpaths rule hrule
    cases hh : rule.HTTP with
    | none => simp [rulePaths, hh] at hone
    | some value => rfl
  · intro vs hok
    have hcount := virtualService_route_count ingress vs hok
    refine ⟨hcount, ?_⟩
    intro rule1 rule2 htwo h1 h2
    rw [hcount, htwo]
    simp [h1, h2]

/-- C2, witness: two rules with one path each give three routes. -/
theorem C2_route_count_witness :
    twoRuleIngress.Spec.Rules ≠ [] ∧
    (∀ rule ∈ twoRuleIngress.Spec.Rules, 1 ≤ (rulePaths rule).length) ∧
    (((∀ path ∈ flatPaths twoRuleIngress, path.Backend.Service.isSome = true) →
      ∃ vs, virtualService twoRuleIngress = .ok vs) ∧
    ∀ vs, virtualService twoRuleIngress = .ok vs →
      vs.Spec.Http.length =
        1 + (twoRuleIngress.Spec.Rules.map (fun rule => (rulePaths rule).length)).sum ∧
      (∀ rule1 rule2, twoRuleIngress.Spec.Rules = [rule1, rule2] →
        (rulePaths rule1).length = 1 → (rulePaths rule2).length = 1 →
        vs.Spec.Http.length = 3)) :=
  ⟨by decide, by decide, C2_route_count twoRuleIngress (by decide) (by decide)⟩

/-! ## C3: the redirect route comes first -/

/-- C3: whenever the mapping succeeds, the route at index 0 has the name
"http-to-https", exactly one match, on port 80, a redirect with scheme
"https", and no destination. -/
theorem C3_redirect_route_first (ingress : Ingress) (vs : VirtualService)
    (hok : virtualService ingress = .ok vs) :
    vs.Spec.Http[0]? = some
      { Name := "http-to-https", Match := [{ Port := 80 }],
        Redirect := some { Scheme := "https" }, Route := [] } := by
  obtain ⟨rule0, rest, -, -, hvs⟩ := virtualService_ok ingress vs hok
  subst hvs
  simp [httpToHttpsRedirect]

/-- C3, witness: the redirect route of the two-rule Ingress. -/
theorem C3_redirect_route_first_witness :
    virtualService twoRuleIngress = .ok twoRuleVirtualService ∧
    twoRuleVirtualService.Spec.Http[0]? = some
      { Name := "http-to-https", Match := [{ Port := 80 }],
        Redirect := some { Scheme := "https" }, Route := [] } :=
  ⟨by decide, C3_redirect_route_first twoRuleIngress twoRuleVirtualService (by decide)⟩

/-! ## C4: the hosts list -/

/-- C4: for an Ingress whose rule list is `rule0 :: rest`, a VirtualService is
produced as soon as every rule has an HTTP section and every path a service
backend, and every VirtualService produced has a hosts list of length 1 whose
element is the host of `rule0`, whatever `rest` is. -/
theorem C4_hosts_is_first_rule_host (ingress : Ingress) (rule0 : IngressRule)
    (rest : List IngressRule) (hrules : ingress.Spec.Rules = rule0 :: rest) :
    (ingress.Spec.Rules.all ruleReadable = true → ∃ vs, virtualService ingress = .ok vs) ∧
    ∀ vs, virtualService ingress = .ok vs →
      vs.Spec.Hosts.length = 1 ∧ vs.Spec.Hosts = [rule0.Host] := by
  refine ⟨virtualService_returns ingress (by simp [hrules]), ?_⟩
  intro vs hok
  obtain ⟨r, rs, hr, -, hvs⟩ := virtualService_ok ingress vs hok
  rw [hrules] at hr
  obtain ⟨rfl, -⟩ := List.cons.inj hr
  subst hvs
  exact ⟨rfl, rfl⟩

/-- C4, witness: the second rule of the two-rule Ingress has another host, and
the hosts list holds the first one only. -/
theorem C4_hosts_is_first_rule_host_witness :
    twoRuleIngress.Spec.Rules =
      { Host := "api.example.com", HTTP := some { Paths := [servicePath "users" 9000] } } ::
      [{ Host := "admin.example.com", HTTP := some { Paths := [servicePath "admin" 9001] } }] ∧
    ((twoRuleIngress.Spec.Rules.all ruleReadable = true →
      ∃ vs, virtualService twoRuleIngress = .ok vs) ∧
    ∀ vs, virtualService twoRuleIngress = .ok vs →
      vs.Spec.Hosts.length = 1 ∧ vs.Spec.Hosts = ["api.example.com"]) :=
  ⟨rfl, C4_hosts_is_first_rule_host twoRuleIngress _ _ rfl⟩

/-! ## C5: the gateways list -/

/-- C5: whenever the mapping succeeds, the gateways list is the one-element
list holding the Ingress namespace followed by "/ingressgateway". -/
theorem C5_gateways (ingress : Ingress) (vs : VirtualService)
    (hok : virtualService ingress = .ok vs) :
    vs.Spec.Gateways = [ingress.Namespace ++ "/ingressgateway"] := by
  obtain ⟨rule0, rest, -, -, hvs⟩ := virtualService_ok ingress vs hok
  subst hvs
  rfl

/-- C5, witness: the gateways of the two-rule Ingress in namespace "staging". -/
theorem C5_gateways_witness :
    virtualService twoRuleIngress = .ok twoRuleVirtualService ∧
    twoRuleVirtualService.Spec.Gateways = [twoRuleIngress.Namespace ++ "/ingressgateway"] :=
  ⟨by decide, C5_gateways twoRuleIngress twoRuleVirtualService (by decide)⟩

/-! ## C6: the identity of the VirtualService -/

/-- C6: whenever the mapping succeeds, the VirtualService has the name and the
namespace of the Ingress, and in every run whose lookup returned this Ingress
each create call passes exactly this VirtualService. -/
theorem C6_identity_copied (ingress : Ingress) (vs : VirtualService)
    (hok : virtualService ingress = .ok vs) :
    vs.Name = ingress.Name ∧ vs.Namespace = ingress.Namespace ∧
    ∀ (env : Env) (nsFlag ingressName : String),
      env.IngressesGet nsFlag ingressName = .ok ingress →
      ∀ call ∈ (main env nsFlag ingressName).calls, call.isCreate = true →
        call = .VirtualServicesCreate nsFlag vs := by
  obtain ⟨rule0, rest, -, -, hvs⟩ := virtualService_ok ingress vs hok
  refine ⟨by rw [hvs], by rw [hvs], ?_⟩
  intro env nsFlag ingressName hget call hmem hcreate
  obtain ⟨ingress1, vs1, hget1, hok1, hcall⟩ :=
    main_create_calls env nsFlag ingressName call hmem hcreate
  rw [hget] at hget1
  obtain rfl := Except.ok.inj hget1
  rw [hok] at hok1
  obtain rfl := Except.ok.inj hok1
  exact hcall

/-- C6, witness: name "api" and namespace "staging" pass from the two-rule
Ingress to its VirtualService and to the create call. -/
theorem C6_identity_copied_witness :
    virtualService twoRuleIngress = .ok twoRuleVirtualService ∧
    (twoRuleVirtualService.Name = twoRuleIngress.Name ∧
     twoRuleVirtualService.Namespace = twoRuleIngress.Namespace ∧
     ∀ (env : Env) (nsFlag ingressName : String),
      env.IngressesGet nsFlag ingressName = .ok twoRuleIngress →
      ∀ call ∈ (main env nsFlag ingressName).calls, call.isCreate = true →
        call = .VirtualServicesCreate nsFlag twoRuleVirtualService) :=
  ⟨by decide, C6_identity_copied twoRuleIngress twoRuleVirtualService (by decide)⟩

/-! ## C7: the scenario of the specification -/

/-- C7: the Ingress "shop" in namespace "prod" with the single host
"shop.example.com" and the paths to cart:8080 and catalog:8081 is turned into
the VirtualService "shop" in "prod" with hosts ["shop.example.com"], gateways
["prod/ingressgateway"] and three routes: the redirect from port 80 to scheme
https, the proxy from port 443 to cart:8080, the proxy from port 443 to
catalog:8081. -/
theorem C7_shop_scenario :
    virtualService
      { Name := "shop", Namespace := "prod", Annotations := [], Labels := [],
        Spec :=
          { IngressClassName := none, DefaultBackend := none, TLS := [],
            Rules :=
              [{ Host := "shop.example.com",
                 HTTP := some { Paths :=
                   [{ Path := "", PathType := none,
                      Backend := { Service := some { Name := "cart", Port := { Name := "", Number := 8080 } },
                                   Resource := none } },
                    { Path := "", PathType := none,
                      Backend := { Service := some { Name := "catalog", Port := { Name := "", Number := 8081 } },
                                   Resource := none } }] } }] } } =
    .ok
      { Name := "shop", Namespace := "prod",
        Spec :=
          { Hosts := ["shop.example.com"],
            Gateways := ["prod/ingressgateway"],
            Http :=
              [{ Name := "http-to-https", Match := [{ Port := 80 }],
                 Redirect := some { Scheme := "https" }, Route := [] },
               { Name := "pos-bff-service", Match := [{ Port := 443 }], Redirect := none,
                 Route := [{ Destination := some (Destination.mk "cart" (some { Number := 8080 })) }] },
               { Name := "pos-bff-service", Match := [{ Port := 443 }], Redirect := none,
                 Route := [{ Destination := some (Destination.mk "catalog" (some { Number := 8081 })) }] }] } } := by
  decide

/-! ## C8: an Ingress without rules -/

/-- C8, counterexample: on the Ingress "shop" in "prod" with no rules the
mapping ends in the out-of-bounds panic of `Rules[0]`, and a run that fetched
this Ingress ends with that panic, not with an error message. -/
theorem C8_empty_rules_out_of_bounds_crash :
    emptyRulesIngress.Spec.Rules = [] ∧
    virtualService emptyRulesIngress = .error (.indexOutOfRange 0 0) ∧
    (main (clusterWith emptyRulesIngress) "prod" "shop").exit =
      .panicked (.indexOutOfRange 0 0) := by
  decide

/-- C8 (amended): for an Ingress whose rule list is empty the mapping produces
no VirtualService: it stops with the index-out-of-range panic of `Rules[0]`
(index 0, length 0).  In every run whose lookup returned such an Ingress no
create call is made, and the run ends with that panic once the flags are
non-empty and configuration and clients are available. -/
theorem C8_empty_rules_panic_no_create (ingress : Ingress)
    (hempty : ingress.Spec.Rules = []) :
    virtualService ingress = .error (.indexOutOfRange 0 0) ∧
    ∀ (env : Env) (nsFlag ingressName : String),
      env.IngressesGet nsFlag ingressName = .ok ingress →
      (∀ call ∈ (main env nsFlag ingressName).calls, call.isCreate = false) ∧
      (nsFlag ≠ "" → ingressName ≠ "" → env.GetConfig = .ok () →
        env.KubernetesNewForConfig = .ok () → env.IstioNewForConfig = .ok () →
        (main env nsFlag ingressName).exit = .panicked (.indexOutOfRange 0 0)) := by
  have hpanic : virtualService ingress = .error (.indexOutOfRange 0 0) := by
    rw [virtualService_eq, hempty]
  refine ⟨hpanic, ?_⟩
  intro env nsFlag ingressName hget
  exact ⟨main_no_create_of_panic env nsFlag ingressName ingress _ hget hpanic,
    fun hns hname hconfig hk8s histio =>
      main_exit_of_panic env nsFlag ingressName ingress _ hns hname hconfig hk8s histio
        hget hpanic⟩

/-- C8, witness: the amended statement at the Ingress without rules. -/
theorem C8_empty_rules_panic_no_create_witness :
    emptyRulesIngress.Spec.Rules = [] ∧
    (virtualService emptyRulesIngress = .error (.indexOutOfRange 0 0) ∧
    ∀ (env : Env) (nsFlag ingressName : String),
      env.IngressesGet nsFlag ingressName = .ok emptyRulesIngress →
      (∀ call ∈ (main env nsFlag ingressName).calls, call.isCreate = false) ∧
      (nsFlag ≠ "" → ingressName ≠ "" → env.GetConfig = .ok () →
        env.KubernetesNewForConfig = .ok () → env.IstioNewForConfig = .ok () →
        (main env nsFlag ingressName).exit = .panicked (.indexOutOfRange 0 0))) :=
  ⟨rfl, C8_empty_rules_panic_no_create emptyRulesIngress rfl⟩

/-! ## C9: an empty first host -/

/-- C9, counterexample: on the Ingress whose only rule has the empty host and
one path to cart:8080 the mapping does not fail: it returns a VirtualService
whose hosts list is [""]. -/
theorem C9_empty_host_is_emitted :
    emptyHostIngress.Spec.Rules ≠ [] ∧
    emptyHostIngress.Spec.Rules[0]?.map (fun rule => rule.Host) = some "" ∧
    virtualService emptyHostIngress = .ok
      { Name := "shop", Namespace := "prod",
        Spec :=
          { Hosts := [""],
            Gateways := ["prod/ingressgateway"],
            Http :=
              [{ Name := "http-to-https", Match := [{ Port := 80 }],
                 Redirect := some { Scheme := "https" }, Route := [] },
               { Name := "pos-bff-service", Match := [{ Port := 443 }], Redirect := none,
                 Route := [{ Destination := some (Destination.mk "cart" (some { Number := 8080 })) }] }] } } := by
  decide

/-- C9 (amended): for an Ingress whose rule list is `rule0 :: rest` with
`rule0.Host` the empty string, the host is not checked: the mapping returns a
VirtualService as soon as every rule has an HTTP section and every path a
service backend, and every VirtualService it returns has the hosts list [""]. -/
theorem C9_empty_host_not_checked (ingress : Ingress) (rule0 : IngressRule)
    (rest : List IngressRule) (hrules : ingress.Spec.Rules = rule0 :: rest)
    (hhost : rule0.Host = "") :
    (ingress.Spec.Rules.all ruleReadable = true →
      ∃ vs, virtualService ingress = .ok vs ∧ vs.Spec.Hosts = [""]) ∧
    ∀ vs, virtualService ingress = .ok vs → vs.Spec.Hosts = [""] := by
  have hhosts : ∀ vs, virtualService ingress = .ok vs → vs.Spec.Hosts = [""] := by
    intro vs hok
    obtain ⟨r, rs, hr, -, hvs⟩ := virtualService_ok ingress vs hok
    rw [hrules] at hr
    obtain ⟨rfl, -⟩ := List.cons.inj hr
    subst hvs
    simp [hhost]
  refine ⟨fun hall => ?_, hhosts⟩
  obtain ⟨vs, hok⟩ := virtualService_returns ingress (by simp [hrules]) hall
  exact ⟨vs, hok, hhosts vs hok⟩

/-- C9, witness: the amended statement at the Ingress with the empty host. -/
theorem C9_empty_host_not_checked_witness :
    emptyHostIngress.Spec.Rules =
      { Host := "", HTTP := some { Paths := [servicePath "cart" 8080] } } :: [] ∧
    (({ Host := "", HTTP := some { Paths := [servicePath "cart" 8080] } } : IngressRule).Host
      = "") ∧
    ((emptyHostIngress.Spec.Rules.all ruleReadable = true →
      ∃ vs, virtualService emptyHostIngress = .ok vs ∧ vs.Spec.Hosts = [""]) ∧
    ∀ vs, virtualService emptyHostIngress = .ok vs → vs.Spec.Hosts = [""]) :=
  ⟨rfl, rfl, C9_empty_host_not_checked emptyHostIngress _ _ rfl rfl⟩

/-! ## C10: a path without a service backend -/

/-- C10, counterexample: on the Ingress whose only path has a resource-typed
backend the mapping ends in a nil-dereference panic, and so does a run that
fetched this Ingress. -/
theorem C10_resource_backend_nil_dereference :
    (∃ path ∈ flatPaths resourceBackendIngress, path.Backend.Service = none) ∧
    virtualService resourceBackendIngress = .error .nilDereference ∧
    (main (clusterWith resourceBackendIngress) "prod" "assets").exit =
      .panicked .nilDereference := by
  decide

/-- C10 (amended): for an Ingress that contains a path whose backend has no
service the mapping produces no VirtualService, hence no proxy route with an
empty destination host for that path: it stops with a nil-dereference panic,
and in every run whose lookup returned such an Ingress no create call is
made. -/
theorem C10_missing_service_panics (ingress : Ingress) (path : HTTPIngressPath)
    (hpath : path ∈ flatPaths ingress) (hnone : path.Backend.Service = none) :
    virtualService ingress = .error .nilDereference ∧
    (∀ vs, virtualService ingress ≠ .ok vs) ∧
    ∀ (env : Env) (nsFlag ingressName : String),
      env.IngressesGet nsFlag ingressName = .ok ingress →
      ∀ call ∈ (main env nsFlag ingressName).calls, call.isCreate = false := by
  have hnot : ¬ ingress.Spec.Rules.all ruleReadable = true := by
    intro hall
    have hsome := ((all_ruleReadable_iff _).1 hall).2 path hpath
    simp [hnone] at hsome
  have hpanic : virtualService ingress = .error .nilDereference := by
    rw [virtualService_eq]
    cases hr : ingress.Spec.Rules with
    | nil => simp [flatPaths, hr] at hpath
    | cons rule0 rest =>
      rw [hr] at hnot
      simp only [if_neg hnot]
  refine ⟨hpanic, ?_, ?_⟩
  · intro vs hok
    rw [hpanic] at hok
    cases hok
  · intro env nsFlag ingressName hget
    exact main_no_create_of_panic env nsFlag ingressName ingress _ hget hpanic

/-- C10, witness: the amended statement at the Ingress with the resource-typed
backend. -/
theorem C10_missing_service_panics_witness :
    resourcePath "StorageBucket" "static" ∈ flatPaths resourceBackendIngress ∧
    (resourcePath "StorageBucket" "static").Backend.Service = none ∧
    (virtualService resourceBackendIngress = .error .nilDereference ∧
    (∀ vs, virtualService resourceBackendIngress ≠ .ok vs) ∧
    ∀ (env : Env) (nsFlag ingressName : String),
      env.IngressesGet nsFlag ingressName = .ok resourceBackendIngress →
      ∀ call ∈ (main env nsFlag ingressName).calls, call.isCreate = false) :=
  ⟨by decide, rfl,
    C10_missing_service_panics resourceBackendIngress
      (resourcePath "StorageBucket" "static") (by decide) rfl⟩

/-! ## Further facts about the mapping and the run -/

/-- The mapping fails on a rule list that is not readable throughout. -/
theorem virtualService_panics (ingress : Ingress) (rule0 : IngressRule)
    (rest : List IngressRule) (hrules : ingress.Spec.Rules = rule0 :: rest)
    (hnot : ¬ ingress.Spec.Rules.all ruleReadable = true) :
    virtualService ingress = .error .nilDereference := by
  rw [virtualService_eq]
  rw [hrules] at hnot
  simp only [hrules, if_neg hnot]

theorem wellFormed_iff (ingress : Ingress) :
    wellFormed ingress = true ↔
      ∃ rule0 rest, ingress.Spec.Rules = rule0 :: rest ∧ rule0.Host ≠ "" ∧
        ingress.Spec.Rules.all ruleReadable = true := by
  unfold wellFormed
  rw [all_ruleReadable_iff]
  cases hr : ingress.Spec.Rules with
  | nil => simp
  | cons rule0 rest =>
    simp only [flatPaths, hr, List.getElem?_cons_zero, Bool.and_eq_true, decide_eq_true_eq,
      List.all_eq_true]
    constructor
    · rintro ⟨⟨h1, h2⟩, h3⟩
      exact ⟨rule0, rest, rfl, h1, h2, h3⟩
    · rintro ⟨r, rs, heq, h1, h2, h3⟩
      obtain ⟨rfl, rfl⟩ := List.cons.inj heq
      exact ⟨⟨h1, h2⟩, h3⟩

/-- The calls of lines 25-104 in the order the program makes them: the run
makes a prefix of configuration, two clients, lookup, create, and a create
call, if any, is the last call. -/
theorem main_calls_shape (env : Env) (nsFlag ingressName : String) :
    (main env nsFlag ingressName).calls = [] ∨
    (main env nsFlag ingressName).calls = [.GetConfig] ∨
    (main env nsFlag ingressName).calls = [.GetConfig, .KubernetesNewForConfig] ∨
    (main env nsFlag ingressName).calls =
      [.GetConfig, .KubernetesNewForConfig, .IstioNewForConfig] ∨
    (main env nsFlag ingressName).calls =
      [.GetConfig, .KubernetesNewForConfig, .IstioNewForConfig,
        .IngressesGet nsFlag ingressName] ∨
    ∃ vs, (main env nsFlag ingressName).calls =
      [.GetConfig, .KubernetesNewForConfig, .IstioNewForConfig,
        .IngressesGet nsFlag ingressName, .VirtualServicesCreate nsFlag vs] := by
  by_cases husage : nsFlag = "" ∨ ingressName = ""
  · left; simp [main, husage]
  · cases h1 : env.GetConfig with
    | error err => right; left; simp [main, husage, h1]
    | ok _ =>
    cases h2 : env.KubernetesNewForConfig with
    | error err => right; right; left; simp [main, husage, h1, h2]
    | ok _ =>
    cases h3 : env.IstioNewForConfig with
    | error err => right; right; right; left; simp [main, husage, h1, h2, h3]
    | ok _ =>
    cases hget : env.IngressesGet nsFlag ingressName with
    | error err => right; right; right; right; left; simp [main, husage, h1, h2, h3, hget]
    | ok ingress =>
    cases hvs : virtualService ingress with
    | error p => right; right; right; right; left; simp [main, husage, h1, h2, h3, hget, hvs]
    | ok vs =>
      right; right; right; right; right
      refine ⟨vs, ?_⟩
      cases hcr : env.VirtualServicesCreate nsFlag vs with
      | error err => simp [main, husage, h1, h2, h3, hget, hvs, hcr]
      | ok _ => simp [main, husage, h1, h2, h3, hget, hvs, hcr]

/-- A run whose lookup fails ends in `log.Fatalf`. -/
theorem main_fatal_of_get_error (env : Env) (nsFlag ingressName err : String)
    (hget : env.IngressesGet nsFlag ingressName = .error err) :
    (∃ message, (main env nsFlag ingressName).exit = .fatal message) ∧
    (nsFlag ≠ "" → ingressName ≠ "" → env.GetConfig = .ok () →
      env.KubernetesNewForConfig = .ok () → env.IstioNewForConfig = .ok () →
      (main env nsFlag ingressName).exit =
        .fatal ("Error getting Ingress resource: " ++ err)) := by
  constructor
  · by_cases husage : nsFlag = "" ∨ ingressName = ""
    · simp [main, husage]
    · cases h1 : env.GetConfig with
      | error e => simp [main, husage, h1]
      | ok _ =>
      cases h2 : env.KubernetesNewForConfig with
      | error e => simp [main, husage, h1, h2]
      | ok _ =>
      cases h3 : env.IstioNewForConfig with
      | error e => simp [main, husage, h1, h2, h3]
      | ok _ => simp [main, husage, h1, h2, h3, hget]
  · intro hns hname h1 h2 h3
    simp [main, hns, hname, h1, h2, h3, hget]

/-- The whole program either stops inside `flag.Parse()` without any call, or is
the run of lines 25-104 on the values of the two flag variables. -/
theorem mainOnArgs_cases (env : Env) (args : List String) (run : Run)
    (hrun : mainOnArgs env args = some run) :
    (∃ err, Parse (registeredFlags env.ImportedFlags) args = some (.error err) ∧
      run = { calls := [], exit := .flagExit err }) ∨
    (∃ f, Parse (registeredFlags env.ImportedFlags) args = some (.ok f) ∧
      run = main env f.nsFlag f.ingressName) := by
  unfold mainOnArgs at hrun
  cases hp : Parse (registeredFlags env.ImportedFlags) args with
  | none => simp [hp] at hrun
  | some result =>
    cases result with
    | error err =>
      simp only [hp, Option.some.injEq] at hrun
      exact Or.inl ⟨err, rfl, hrun.symm⟩
    | ok f =>
      simp only [hp, Option.some.injEq] at hrun
      exact Or.inr ⟨f, rfl, hrun.symm⟩

/-! ## C11: the mapping is total on well-formed input -/

/-- C11: for an Ingress whose rule list is non-empty, whose first host is
non-empty, whose every rule has an HTTP section and whose every path has a
service backend, the mapping returns a VirtualService and raises no panic, and
that VirtualService depends on the Ingress alone: whatever the environment and
the flag values of a run that fetched this Ingress, a create call passes it. -/
theorem C11_total_on_well_formed (ingress : Ingress)
    (hrules : ingress.Spec.Rules ≠ [])
    (_hhost : ∀ rule0 ∈ ingress.Spec.Rules[0]?, rule0.Host ≠ "")
    (hhttp : ∀ rule ∈ ingress.Spec.Rules, rule.HTTP.isSome = true)
    (hservice : ∀ path ∈ flatPaths ingress, path.Backend.Service.isSome = true) :
    ∃ vs, virtualService ingress = .ok vs ∧
      (∀ p, virtualService ingress ≠ .error p) ∧
      ∀ (env : Env) (nsFlag ingressName : String),
        env.IngressesGet nsFlag ingressName = .ok ingress →
        ∀ call ∈ (main env nsFlag ingressName).calls, call.isCreate = true →
          call = .VirtualServicesCreate nsFlag vs := by
  obtain ⟨vs, hok⟩ := virtualService_returns ingress hrules
    ((all_ruleReadable_iff _).2 ⟨hhttp, hservice⟩)
  refine ⟨vs, hok, ?_, ?_⟩
  · intro p hp
    rw [hok] at hp
    cases hp
  · intro env nsFlag ingressName hget call hmem hcreate
    obtain ⟨ingress1, vs1, hget1, hok1, hcall⟩ :=
      main_create_calls env nsFlag ingressName call hmem hcreate
    rw [hget] at hget1
    obtain rfl := Except.ok.inj hget1
    rw [hok] at hok1
    obtain rfl := Except.ok.inj hok1
    exact hcall

/-- C11, witness: the two-rule Ingress is well-formed and is mapped. -/
theorem C11_total_on_well_formed_witness :
    twoRuleIngress.Spec.Rules ≠ [] ∧
    (∀ rule0 ∈ twoRuleIngress.Spec.Rules[0]?, rule0.Host ≠ "") ∧
    (∀ rule ∈ twoRuleIngress.Spec.Rules, rule.HTTP.isSome = true) ∧
    (∀ path ∈ flatPaths twoRuleIngress, path.Backend.Service.isSome = true) ∧
    ∃ vs, virtualService twoRuleIngress = .ok vs ∧
      (∀ p, virtualService twoRuleIngress ≠ .error p) ∧
      ∀ (env : Env) (nsFlag ingressName : String),
        env.IngressesGet nsFlag ingressName = .ok twoRuleIngress →
        ∀ call ∈ (main env nsFlag ingressName).calls, call.isCreate = true →
          call = .VirtualServicesCreate nsFlag vs :=
  ⟨by decide, by decide, by decide, by decide,
    C11_total_on_well_formed twoRuleIngress (by decide) (by decide) (by decide) (by decide)⟩

/-! ## C14: a failed lookup is fatal, and create is called at most once -/

/-- C14: in a run whose lookup of the Ingress returns an error the process ends
in `log.Fatalf` (with the lookup error once the flags are non-empty and
configuration and clients are available) and no create call is made.  In every
run there is at most one create call; it is the last call, and it passes the
VirtualService the mapping returned for the fetched Ingress, whose routes are
the redirect followed by all proxy routes.  The same bound holds for the whole
program on any command line. -/
theorem C14_lookup_error_fatal_create_once (env : Env) (nsFlag ingressName : String) :
    (∀ err, env.IngressesGet nsFlag ingressName = .error err →
      (∃ message, (main env nsFlag ingressName).exit = .fatal message) ∧
      (∀ call ∈ (main env nsFlag ingressName).calls, call.isCreate = false) ∧
      (nsFlag ≠ "" → ingressName ≠ "" → env.GetConfig = .ok () →
        env.KubernetesNewForConfig = .ok () → env.IstioNewForConfig = .ok () →
        (main env nsFlag ingressName).exit =
          .fatal ("Error getting Ingress resource: " ++ err))) ∧
    ((main env nsFlag ingressName).calls.filter Call.isCreate).length ≤ 1 ∧
    (∀ call ∈ (main env nsFlag ingressName).calls, call.isCreate = true →
      (main env nsFlag ingressName).calls.getLast? = some call ∧
      ∃ ingress vs, env.IngressesGet nsFlag ingressName = .ok ingress ∧
        virtualService ingress = .ok vs ∧
        vs.Spec.Http = httpToHttpsRedirect :: (flatServices ingress).map proxyRoute ∧
        call = .VirtualServicesCreate nsFlag vs) ∧
    (∀ args run, mainOnArgs env args = some run →
      (run.calls.filter Call.isCreate).length ≤ 1) := by
  have hcount : ∀ (ns name : String),
      ((main env ns name).calls.filter Call.isCreate).length ≤ 1 := by
    intro ns name
    rcases main_calls_shape env ns name with h | h | h | h | h | ⟨vs, h⟩ <;>
      rw [h] <;> simp [List.filter, Call.isCreate]
  refine ⟨?_, hcount nsFlag ingressName, ?_, ?_⟩
  · intro err hget
    refine ⟨(main_fatal_of_get_error env nsFlag ingressName err hget).1, ?_,
      (main_fatal_of_get_error env nsFlag ingressName err hget).2⟩
    intro call hmem
    cases hc : call.isCreate with
    | false => rfl
    | true =>
      obtain ⟨ingress1, vs1, hget1, -, -⟩ :=
        main_create_calls env nsFlag ingressName call hmem hc
      rw [hget] at hget1
      cases hget1
  · intro call hmem hcreate
    obtain ⟨ingress, vs, hget, hok, hcall⟩ :=
      main_create_calls env nsFlag ingressName call hmem hcreate
    obtain ⟨rule0, rest, -, -, hvs⟩ := virtualService_ok ingress vs hok
    refine ⟨?_, ingress, vs, hget, hok, by rw [hvs], hcall⟩
    subst hcall
    rcases main_calls_shape env nsFlag ingressName with h | h | h | h | h | ⟨vs1, h⟩ <;>
      rw [h] at hmem ⊢ <;> simp at hmem ⊢
    exact hmem.symm
  · intro args run hrun
    rcases mainOnArgs_cases env args run hrun with ⟨err, -, rfl⟩ | ⟨f, -, rfl⟩
    · simp
    · exact hcount _ _

/-- C14, witness: in the cluster where every lookup fails with "not found", the
run for "shop" in "prod" ends with the lookup error and makes no create call,
and no run there makes more than one. -/
theorem C14_lookup_error_fatal_create_once_witness :
    (clusterWithout "not found").IngressesGet "prod" "shop" = .error "not found" ∧
    (main (clusterWithout "not found") "prod" "shop").exit =
      .fatal "Error getting Ingress resource: not found" ∧
    (∀ call ∈ (main (clusterWithout "not found") "prod" "shop").calls,
      call.isCreate = false) ∧
    ((main (clusterWithout "not found") "prod" "shop").calls.filter Call.isCreate).length ≤ 1 :=
  ⟨rfl,
    ((C14_lookup_error_fatal_create_once (clusterWithout "not found") "prod" "shop").1
      "not found" rfl).2.2 (by decide) (by decide) rfl rfl rfl,
    ((C14_lookup_error_fatal_create_once (clusterWithout "not found") "prod" "shop").1
      "not found" rfl).2.1,
    (C14_lookup_error_fatal_create_once (clusterWithout "not found") "prod" "shop").2.1⟩

/-! ## C15: the redirect route is first and is the only one -/

/-- C15: whenever the mapping succeeds, the route at index 0 carries a redirect
and matches port 80, a route that carries a redirect or has a match on port 80
can only be at index 0, and every route at an index from 1 on has the single
match on port 443, no redirect and the name "pos-bff-service". -/
theorem C15_redirect_unique_and_first (ingress : Ingress) (vs : VirtualService)
    (hok : virtualService ingress = .ok vs) :
    (∃ route, vs.Spec.Http[0]? = some route ∧ route.Redirect.isSome = true ∧
      route.Match = [{ Port := 80 }]) ∧
    ∀ k route, vs.Spec.Http[k]? = some route →
      ((route.Redirect.isSome = true ∨ ∃ m ∈ route.Match, m.Port = 80) → k = 0) ∧
      (1 ≤ k → route.Match = [{ Port := 443 }] ∧ route.Redirect = none ∧
        route.Name = "pos-bff-service") := by
  obtain ⟨rule0, rest, -, -, hvs⟩ := virtualService_ok ingress vs hok
  subst hvs
  refine ⟨⟨httpToHttpsRedirect, by simp, by simp [httpToHttpsRedirect],
    by simp [httpToHttpsRedirect]⟩, ?_⟩
  intro k route hk
  cases k with
  | zero => simp
  | succ j =>
    simp only [List.getElem?_cons_succ, List.getElem?_map] at hk
    cases hj : (flatServices ingress)[j]? with
    | none => simp [hj] at hk
    | some service =>
      simp only [hj, Option.map_some', Option.some.injEq] at hk
      subst hk
      simp [proxyRoute]

/-- C15, witness: the three routes of the two-rule Ingress. -/
theorem C15_redirect_unique_and_first_witness :
    virtualService twoRuleIngress = .ok twoRuleVirtualService ∧
    ((∃ route, twoRuleVirtualService.Spec.Http[0]? = some route ∧
      route.Redirect.isSome = true ∧ route.Match = [{ Port := 80 }]) ∧
    ∀ k route, twoRuleVirtualService.Spec.Http[k]? = some route →
      ((route.Redirect.isSome = true ∨ ∃ m ∈ route.Match, m.Port = 80) → k = 0) ∧
      (1 ≤ k → route.Match = [{ Port := 443 }] ∧ route.Redirect = none ∧
        route.Name = "pos-bff-service")) :=
  ⟨by decide, C15_redirect_unique_and_first twoRuleIngress twoRuleVirtualService (by decide)⟩

/-! ## C16: what the output depends on -/

/-- The proxy route is determined by the service name and the port number. -/
theorem map_proxyRoute_of_pairs (xs ys : List IngressServiceBackend)
    (hpairs : xs.map (fun service => (service.Name, service.Port.Number)) =
      ys.map (fun service => (service.Name, service.Port.Number))) :
    xs.map proxyRoute = ys.map proxyRoute := by
  have hfactor : ∀ zs : List IngressServiceBackend, zs.map proxyRoute =
      (zs.map (fun service => (service.Name, service.Port.Number))).map
        (fun pair => proxyRoute { Name := pair.1, Port := { Name := "", Number := pair.2 } }) := by
    intro zs
    rw [List.map_map]
    rfl
  rw [hfactor xs, hfactor ys, hpairs]

/-- C16: two well-formed Ingresses with the same name, the same namespace, the
same first host and the same flattened sequence of (backend service name,
backend service port) pairs are mapped to the same VirtualService, whatever
else differs between them. -/
theorem C16_output_depends_on_four_things (a b : Ingress)
    (ha : wellFormed a = true) (hb : wellFormed b = true)
    (hname : a.Name = b.Name) (hnamespace : a.Namespace = b.Namespace)
    (hhost : a.Spec.Rules[0]?.map (fun rule => rule.Host) =
      b.Spec.Rules[0]?.map (fun rule => rule.Host))
    (hpairs : servicePairs a = servicePairs b) :
    virtualService a = virtualService b ∧ ∃ vs, virtualService a = .ok vs := by
  obtain ⟨ra, resta, hra, -, hreada⟩ := (wellFormed_iff a).1 ha
  obtain ⟨rb, restb, hrb, -, hreadb⟩ := (wellFormed_iff b).1 hb
  have hroutes := map_proxyRoute_of_pairs (flatServices a) (flatServices b) hpairs
  have hhosts : ra.Host = rb.Host := by
    simpa [hra, hrb] using hhost
  have hva := virtualService_eq a
  have hvb := virtualService_eq b
  rw [hra] at hreada
  rw [hrb] at hreadb
  simp only [hra, if_pos hreada] at hva
  simp only [hrb, if_pos hreadb] at hvb
  refine ⟨?_, _, hva⟩
  rw [hva, hvb, hname, hnamespace, hhosts, hroutes]

/-- C16, witness: the two-rule Ingress and its regrouping under one rule, with
other path strings, path types, port name, TLS, annotations and a further rule
with another host, are mapped to the same VirtualService. -/
theorem C16_output_depends_on_four_things_witness :
    wellFormed twoRuleIngress = true ∧ wellFormed regroupedIngress = true ∧
    twoRuleIngress.Name = regroupedIngress.Name ∧
    twoRuleIngress.Namespace = regroupedIngress.Namespace ∧
    twoRuleIngress.Spec.Rules[0]?.map (fun rule => rule.Host) =
      regroupedIngress.Spec.Rules[0]?.map (fun rule => rule.Host) ∧
    servicePairs twoRuleIngress = servicePairs regroupedIngress ∧
    twoRuleIngress ≠ regroupedIngress ∧
    (virtualService twoRuleIngress = virtualService regroupedIngress ∧
      ∃ vs, virtualService twoRuleIngress = .ok vs) :=
  ⟨by decide, by decide, by decide, by decide, by decide, by decide, by decide,
    C16_output_depends_on_four_things twoRuleIngress regroupedIngress
      (by decide) (by decide) (by decide) (by decide) (by decide) (by decide)⟩

/-! ## C17: the port conversion -/

/-- C17: for a path whose service backend has the `int32` port number p, the
route is built without failure and its one destination has the port number
`uint32 p`, which is p when 0 <= p <= 2^31 - 1 and p + 2^32 when p is negative;
and the mapping returns on every Ingress with a non-empty rule list, an HTTP
section in every rule and a service backend on every path, whatever the port
numbers are. -/
theorem C17_port_conversion (path : HTTPIngressPath) (service : IngressServiceBackend)
    (hservice : path.Backend.Service = some service)
    (hlow : -2147483648 ≤ service.Port.Number)
    (hhigh : service.Port.Number ≤ 2147483647) :
    (∃ route, httpRoute path = .ok route ∧
      route.Route = [{ Destination := some (Destination.mk service.Name
        (some { Number := uint32 service.Port.Number })) }]) ∧
    (0 ≤ service.Port.Number →
      ((uint32 service.Port.Number : Nat) : Int) = service.Port.Number) ∧
    (service.Port.Number < 0 →
      ((uint32 service.Port.Number : Nat) : Int) = service.Port.Number + 4294967296) ∧
    (∀ ingress : Ingress, ingress.Spec.Rules ≠ [] →
      (∀ rule ∈ ingress.Spec.Rules, rule.HTTP.isSome = true) →
      (∀ q ∈ flatPaths ingress, q.Backend.Service.isSome = true) →
      ∃ vs, virtualService ingress = .ok vs) := by
  refine ⟨⟨proxyRoute service, by simp [httpRoute, hservice, proxyRoute], rfl⟩, ?_, ?_, ?_⟩
  · intro h0
    unfold uint32
    omega
  · intro hneg
    unfold uint32
    omega
  · intro ingress hrules hhttp hsvc
    exact virtualService_returns ingress hrules ((all_ruleReadable_iff _).2 ⟨hhttp, hsvc⟩)

/-- C17, witness: the path to web:-1 gets the destination port 4294967295. -/
theorem C17_port_conversion_witness :
    (servicePath "web" (-1)).Backend.Service =
      some { Name := "web", Port := { Name := "", Number := -1 } } ∧
    (-2147483648 : Int) ≤ -1 ∧ (-1 : Int) ≤ 2147483647 ∧
    ((∃ route, httpRoute (servicePath "web" (-1)) = .ok route ∧
      route.Route = [{ Destination := some (Destination.mk "web"
        (some { Number := uint32 (-1) })) }]) ∧
    ((0 : Int) ≤ -1 → ((uint32 (-1) : Nat) : Int) = -1) ∧
    ((-1 : Int) < 0 → ((uint32 (-1) : Nat) : Int) = -1 + 4294967296) ∧
    (∀ ingress : Ingress, ingress.Spec.Rules ≠ [] →
      (∀ rule ∈ ingress.Spec.Rules, rule.HTTP.isSome = true) →
      (∀ q ∈ flatPaths ingress, q.Backend.Service.isSome = true) →
      ∃ vs, virtualService ingress = .ok vs)) :=
  ⟨rfl, by decide, by decide,
    C17_port_conversion (servicePath "web" (-1))
      { Name := "web", Port := { Name := "", Number := -1 } } rfl (by decide) (by decide)⟩

/-! ## C18: empty path lists and absent HTTP sections -/

/-- C18: a rule whose HTTP section has an empty path list changes neither the
routes nor the success of the mapping (the routes are those of the loop over
the other rules), every VirtualService returned has 1 plus the total number of
paths as its number of routes, with no condition on the rules, and a rule
without an HTTP section makes the mapping stop with a nil dereference. -/
theorem C18_empty_paths_and_nil_http :
    (∀ (ingress : Ingress) (before after : List IngressRule) (rule : IngressRule),
      ingress.Spec.Rules = before ++ rule :: after →
      rule.HTTP = some { Paths := [] } →
      (virtualService ingress).map (fun vs => vs.Spec.Http) =
        rulesLoop (before ++ after) [httpToHttpsRedirect]) ∧
    (∀ (ingress : Ingress) (vs : VirtualService), virtualService ingress = .ok vs →
      vs.Spec.Http.length =
        1 + (ingress.Spec.Rules.map (fun rule => (rulePaths rule).length)).sum) ∧
    (∀ (ingress : Ingress) (rule : IngressRule), rule ∈ ingress.Spec.Rules →
      rule.HTTP = none → virtualService ingress = .error .nilDereference) := by
  refine ⟨?_, virtualService_route_count, ?_⟩
  · intro ingress before after rule hrules hempty
    have hreadable : ruleReadable rule = true := by
      simp [ruleReadable, hempty, pathsHaveService]
    have hpaths : rulePaths rule = [] := by
      simp [rulePaths, hempty]
    have hloop : rulesLoop (before ++ rule :: after) [httpToHttpsRedirect] =
        rulesLoop (before ++ after) [httpToHttpsRedirect] := by
      rw [rulesLoop_eq, rulesLoop_eq]
      simp [hreadable, hpaths]
    unfold virtualService
    cases hr : ingress.Spec.Rules with
    | nil =>
      rw [hr] at hrules
      simp at hrules
    | cons rule0 rest =>
      rw [hrules] at hr
      simp only [List.getElem?_cons_zero, List.nil_append]
      rw [← hr, hloop]
      cases rulesLoop (before ++ after) [httpToHttpsRedirect] <;> rfl
  · intro ingress rule hmem hnil
    cases hr : ingress.Spec.Rules with
    | nil => simp [hr] at hmem
    | cons rule0 rest =>
      apply virtualService_panics ingress rule0 rest hr
      intro hall
      have hsome := ((all_ruleReadable_iff _).1 hall).1 rule hmem
      simp [hnil] at hsome

/-- C18, witness: the second rule of `regroupedIngress` has an empty path list
and leaves the routes those of the first rule alone, while the second rule of
`nilHTTPIngress` has no HTTP section and stops the mapping. -/
theorem C18_empty_paths_and_nil_http_witness :
    (virtualService regroupedIngress).map (fun vs => vs.Spec.Http) =
      rulesLoop [usersAndAdminRule] [httpToHttpsRedirect] ∧
    virtualService nilHTTPIngress = .error .nilDereference :=
  ⟨C18_empty_paths_and_nil_http.1 regroupedIngress [usersAndAdminRule] []
      { Host := "unused.example.com", HTTP := some { Paths := [] } } rfl rfl,
    C18_empty_paths_and_nil_http.2.2 nilHTTPIngress
      { Host := "static.example.com", HTTP := none } (by decide) rfl⟩

/-! ## The flag parser -/

theorem parseValue_cases (f f1 : FlagSet) (rest : List String) (name : String)
    (p : FlagVar) (joined : Option (List Char)) (seen : Bool)
    (h : parseValue f rest name p joined = .ok (seen, f1)) :
    seen = true ∧ f1.args.length ≤ rest.length ∧ f1.formal = f.formal ∧
      f1.actual = f.actual ++ [name] ∧
      ∃ value, f1.nsFlag = (f.Set p value).nsFlag ∧
        f1.ingressName = (f.Set p value).ingressName := by
  unfold parseValue at h
  split at h
  · simp only [Except.ok.injEq, Prod.mk.injEq] at h
    obtain ⟨rfl, rfl⟩ := h
    exact ⟨rfl, by simp, by cases p <;> rfl, rfl, _, rfl, rfl⟩
  · simp only [Except.ok.injEq, Prod.mk.injEq] at h
    obtain ⟨rfl, rfl⟩ := h
    exact ⟨rfl, by simp, by cases p <;> rfl, rfl, _, rfl, rfl⟩
  · cases h

theorem parseName_cases (f f1 : FlagSet) (s : String) (rest : List String)
    (name : List Char) (seen : Bool)
    (h : parseName f s rest name = .ok (seen, f1)) :
    seen = true ∧ f1.args.length ≤ rest.length ∧ f1.formal = f.formal ∧
      ∃ flag p value, f.formal.lookup flag = some p ∧
        f1.actual = f.actual ++ [flag] ∧
        f1.nsFlag = (f.Set p value).nsFlag ∧
        f1.ingressName = (f.Set p value).ingressName := by
  unfold parseName at h
  split at h
  · cases h
  · rename_i n0 ns
    by_cases hbad : n0 = '-' ∨ n0 = '='
    · rw [if_pos hbad] at h
      cases h
    · rw [if_neg hbad] at h
      cases hlookup : f.formal.lookup (String.mk (n0 :: (splitValue ns).1)) with
      | none =>
        simp only [hlookup] at h
        split_ifs at h
      | some p =>
        simp only [hlookup] at h
        obtain ⟨h1, h2, h3, h4, value, h5, h6⟩ := parseValue_cases _ _ _ _ _ _ _ h
        exact ⟨h1, h2, h3, _, p, value, hlookup, h4, h5, h6⟩

/-- What one step of the parser can do: stop without touching the variables,
or set one registered flag and consume at least one argument. -/
theorem parseOne_cases (f f1 : FlagSet) (seen : Bool)
    (h : parseOne f = .ok (seen, f1)) :
    (seen = false ∧ f1.nsFlag = f.nsFlag ∧ f1.ingressName = f.ingressName ∧
      f1.formal = f.formal ∧ f1.actual = f.actual) ∨
    (seen = true ∧ f1.args.length < f.args.length ∧ f1.formal = f.formal ∧
      ∃ flag p value, f.formal.lookup flag = some p ∧
        f1.actual = f.actual ++ [flag] ∧
        f1.nsFlag = (f.Set p value).nsFlag ∧
        f1.ingressName = (f.Set p value).ingressName) := by
  unfold parseOne at h
  split at h
  · simp only [Except.ok.injEq, Prod.mk.injEq] at h
    obtain ⟨rfl, rfl⟩ := h
    exact Or.inl ⟨rfl, rfl, rfl, rfl, rfl⟩
  · rename_i s rest hargs
    split at h
    · rename_i c0 c1 cs hs
      by_cases hc0 : c0 ≠ '-'
      · rw [if_pos hc0] at h
        simp only [Except.ok.injEq, Prod.mk.injEq] at h
        obtain ⟨rfl, rfl⟩ := h
        exact Or.inl ⟨rfl, rfl, rfl, rfl, rfl⟩
      · rw [if_neg hc0] at h
        by_cases hterm : c1 = '-' ∧ cs = []
        · rw [if_pos hterm] at h
          simp only [Except.ok.injEq, Prod.mk.injEq] at h
          obtain ⟨rfl, rfl⟩ := h
          exact Or.inl ⟨rfl, rfl, rfl, rfl, rfl⟩
        · rw [if_neg hterm] at h
          obtain ⟨h1, h2, h3, h4⟩ := parseName_cases _ _ _ _ _ _ h
          refine Or.inr ⟨h1, ?_, h3, h4⟩
          rw [hargs]
          simp only [List.length_cons]
          omega
    · simp only [Except.ok.injEq, Prod.mk.injEq] at h
      obtain ⟨rfl, rfl⟩ := h
      exact Or.inl ⟨rfl, rfl, rfl, rfl, rfl⟩

theorem splitValue_joined (name value : List Char) (hname : '=' ∉ name) :
    splitValue (name ++ '=' :: value) = (name, some value) := by
  induction name with
  | nil => simp [splitValue]
  | cons c cs ih =>
    have hc : c ≠ '=' := fun h => hname (by simp [h])
    have hcs : '=' ∉ cs := fun h => hname (List.mem_cons_of_mem _ h)
    simp [splitValue, hc, ih hcs]

theorem splitValue_plain (name : List Char) (hname : '=' ∉ name) :
    splitValue name = (name, none) := by
  induction name with
  | nil => simp [splitValue]
  | cons c cs ih =>
    have hc : c ≠ '=' := fun h => hname (by simp [h])
    have hcs : '=' ∉ cs := fun h => hname (List.mem_cons_of_mem _ h)
    simp [splitValue, hc, ih hcs]

/-- One step of the parser on a flag written as `-name=value`. -/
theorem parseOne_joined (f : FlagSet) (twoDashes : Bool) (name value : String)
    (more : List String) (n0 : Char) (ns : List Char) (p : FlagVar)
    (hname : name.data = n0 :: ns) (h1 : n0 ≠ '-') (h2 : n0 ≠ '=') (h3 : '=' ∉ ns)
    (hp : f.formal.lookup name = some p) :
    parseOne { f with args := (dashes twoDashes ++ name ++ "=" ++ value) :: more } =
      .ok (true, { f.Set p value with args := more, actual := f.actual ++ [name] }) := by
  have hmk : String.mk (n0 :: ns) = name := by rw [← hname]
  cases p <;> cases twoDashes <;>
    simp [parseOne, parseName, parseValue, dashes, String.toList, String.data_append, hname,
      h1, h2, splitValue_joined _ _ h3, hmk, hp, FlagSet.Set]

/-- One step of the parser on a flag written as `-name value`. -/
theorem parseOne_separate (f : FlagSet) (twoDashes : Bool) (name value : String)
    (more : List String) (n0 : Char) (ns : List Char) (p : FlagVar)
    (hname : name.data = n0 :: ns) (h1 : n0 ≠ '-') (h2 : n0 ≠ '=') (h3 : '=' ∉ ns)
    (hp : f.formal.lookup name = some p) :
    parseOne { f with args := (dashes twoDashes ++ name) :: value :: more } =
      .ok (true, { f.Set p value with args := more, actual := f.actual ++ [name] }) := by
  have hmk : String.mk (n0 :: ns) = name := by rw [← hname]
  cases p <;> cases twoDashes <;>
    simp [parseOne, parseName, parseValue, dashes, String.toList, String.data_append, hname,
      h1, h2, splitValue_plain _ h3, hmk, hp, FlagSet.Set]

theorem registered_formal (imported : List String) :
    (registeredFlags imported).formal =
      imported.map (fun name => (name, FlagVar.other)) ++
        [("namespace", .nsFlag), ("ingressname", .ingressName), ("n", .nsFlag),
          ("i", .ingressName)] := by
  simp [registeredFlags, StringVar, importedFlags, FlagSet.Set, FlagSet.empty]

theorem lookup_imported_append (imported : List String) (flag : String)
    (tail : List (String × FlagVar)) :
    (flag ∉ imported → List.lookup flag
      (imported.map (fun name => (name, FlagVar.other)) ++ tail) = List.lookup flag tail) ∧
    (∀ p, List.lookup flag
      (imported.map (fun name => (name, FlagVar.other)) ++ tail) = some p →
      p = .other ∨ List.lookup flag tail = some p) := by
  induction imported with
  | nil => exact ⟨fun _ => rfl, fun p h => Or.inr h⟩
  | cons name names ih =>
    by_cases hname : flag = name
    · subst hname
      refine ⟨fun h => absurd (List.mem_cons_self _ _) h, fun p h => ?_⟩
      simp [List.lookup] at h
      exact Or.inl h.symm
    · have hbeq : (flag == name) = false := by simpa using hname
      refine ⟨fun h => ?_, fun p h => ?_⟩
      · simp only [List.map_cons, List.cons_append, List.lookup, hbeq]
        exact ih.1 (fun hmem => h (List.mem_cons_of_mem _ hmem))
      · simp only [List.map_cons, List.cons_append, List.lookup, hbeq] at h
        exact ih.2 p h

/-- The four names of lines 18-21 are looked up to the two variables of
`main`. -/
theorem lookup_program_flags (imported : List String)
    (hclash : ∀ name ∈ ["namespace", "ingressname", "n", "i"], name ∉ imported) :
    (registeredFlags imported).formal.lookup "namespace" = some .nsFlag ∧
    (registeredFlags imported).formal.lookup "ingressname" = some .ingressName ∧
    (registeredFlags imported).formal.lookup "n" = some .nsFlag ∧
    (registeredFlags imported).formal.lookup "i" = some .ingressName := by
  rw [registered_formal]
  refine ⟨?_, ?_, ?_, ?_⟩
  · rw [(lookup_imported_append imported _ _).1 (hclash _ (by decide))]; decide
  · rw [(lookup_imported_append imported _ _).1 (hclash _ (by decide))]; decide
  · rw [(lookup_imported_append imported _ _).1 (hclash _ (by decide))]; decide
  · rw [(lookup_imported_append imported _ _).1 (hclash _ (by decide))]; decide

/-- The loop of `Parse` never runs out of the fuel it is given. -/
theorem parseLoop_total (fuel : Nat) (f : FlagSet) (hfuel : f.args.length < fuel) :
    ∃ result, parseLoop fuel f = some result := by
  induction fuel generalizing f with
  | zero => omega
  | succ n ih =>
    unfold parseLoop
    cases hone : parseOne f with
    | error err => exact ⟨_, rfl⟩
    | ok step =>
      obtain ⟨seen, f1⟩ := step
      cases seen with
      | false => exact ⟨_, rfl⟩
      | true =>
        rcases parseOne_cases f f1 true hone with ⟨hfalse, -⟩ | ⟨-, hlen, -⟩
        · cases hfalse
        · exact ih f1 (by omega)

theorem lookup_registered (imported : List String) (flag : String) (p : FlagVar)
    (h : (registeredFlags imported).formal.lookup flag = some p) :
    p = .other ∨
    (p = .nsFlag ∧ (flag = "namespace" ∨ flag = "n")) ∨
    (p = .ingressName ∧ (flag = "ingressname" ∨ flag = "i")) := by
  rw [registered_formal] at h
  rcases (lookup_imported_append imported flag _).2 p h with hother | h
  · exact Or.inl hother
  right
  simp only [List.lookup] at h
  split at h
  · rename_i heq
    simp only [Option.some.injEq] at h
    exact Or.inl ⟨h.symm, Or.inl (by simpa using heq)⟩
  · split at h
    · rename_i heq
      simp only [Option.some.injEq] at h
      exact Or.inr ⟨h.symm, Or.inl (by simpa using heq)⟩
    · split at h
      · rename_i heq
        simp only [Option.some.injEq] at h
        exact Or.inl ⟨h.symm, Or.inr (by simpa using heq)⟩
      · split at h
        · rename_i heq
          simp only [Option.some.injEq] at h
          exact Or.inr ⟨h.symm, Or.inr (by simpa using heq)⟩
        · cases h

/-- A variable whose flags have not been set keeps its registered default
through one step of the parser. -/
theorem parseOne_unset (imported : List String) (f f1 : FlagSet) (seen : Bool)
    (hformal : f.formal = (registeredFlags imported).formal)
    (hi : "i" ∉ f.actual ∧ "ingressname" ∉ f.actual → f.ingressName = "")
    (hn : "n" ∉ f.actual ∧ "namespace" ∉ f.actual → f.nsFlag = "default")
    (h : parseOne f = .ok (seen, f1)) :
    f1.formal = (registeredFlags imported).formal ∧
    ("i" ∉ f1.actual ∧ "ingressname" ∉ f1.actual → f1.ingressName = "") ∧
    ("n" ∉ f1.actual ∧ "namespace" ∉ f1.actual → f1.nsFlag = "default") := by
  rcases parseOne_cases f f1 seen h with
    ⟨-, h1, h2, h3, h4⟩ | ⟨-, -, h3, flag, p, value, hlookup, h4, h5, h6⟩
  · rw [h1, h2, h3, h4]
    exact ⟨hformal, hi, hn⟩
  · rw [hformal] at hlookup
    refine ⟨by rw [h3, hformal], ?_, ?_⟩
    · rintro ⟨ha, hb⟩
      rw [h4] at ha hb
      simp only [List.mem_append, List.mem_singleton, not_or] at ha hb
      rcases lookup_registered imported flag p hlookup with
        rfl | ⟨rfl, -⟩ | ⟨-, rfl | rfl⟩
      · rw [h6]
        exact hi ⟨ha.1, hb.1⟩
      · rw [h6]
        exact hi ⟨ha.1, hb.1⟩
      · exact absurd rfl hb.2
      · exact absurd rfl ha.2
    · rintro ⟨ha, hb⟩
      rw [h4] at ha hb
      simp only [List.mem_append, List.mem_singleton, not_or] at ha hb
      rcases lookup_registered imported flag p hlookup with
        rfl | ⟨-, rfl | rfl⟩ | ⟨rfl, -⟩
      · rw [h5]
        exact hn ⟨ha.1, hb.1⟩
      · exact absurd rfl hb.2
      · exact absurd rfl ha.2
      · rw [h5]
        exact hn ⟨ha.1, hb.1⟩

theorem parseLoop_unset (imported : List String) (fuel : Nat) (f f1 : FlagSet)
    (hformal : f.formal = (registeredFlags imported).formal)
    (hi : "i" ∉ f.actual ∧ "ingressname" ∉ f.actual → f.ingressName = "")
    (hn : "n" ∉ f.actual ∧ "namespace" ∉ f.actual → f.nsFlag = "default")
    (h : parseLoop fuel f = some (.ok f1)) :
    ("i" ∉ f1.actual ∧ "ingressname" ∉ f1.actual → f1.ingressName = "") ∧
    ("n" ∉ f1.actual ∧ "namespace" ∉ f1.actual → f1.nsFlag = "default") := by
  induction fuel generalizing f with
  | zero => simp [parseLoop] at h
  | succ n ih =>
    unfold parseLoop at h
    cases hone : parseOne f with
    | error err => simp [hone] at h
    | ok step =>
      obtain ⟨seen, f2⟩ := step
      obtain ⟨g1, g2, g3⟩ := parseOne_unset imported f f2 seen hformal hi hn hone
      cases seen with
      | false =>
        simp only [hone, Option.some.injEq, Except.ok.injEq] at h
        subst h
        exact ⟨g2, g3⟩
      | true =>
        simp only [hone] at h
        exact ih f2 g1 g2 g3 h

/-- After `flag.Parse()` has returned, a variable none of whose two flags was
set holds its registered default: "" for the Ingress name, "default" for the
namespace. -/
theorem Parse_unset (imported : List String) (args : List String) (f : FlagSet)
    (h : Parse (registeredFlags imported) args = some (.ok f)) :
    ("i" ∉ f.actual ∧ "ingressname" ∉ f.actual → f.ingressName = "") ∧
    ("n" ∉ f.actual ∧ "namespace" ∉ f.actual → f.nsFlag = "default") :=
  parseLoop_unset imported (args.length + 1) { registeredFlags imported with args := args } f
    rfl (fun _ => rfl) (fun _ => rfl) h

/-- The whole program always ends. -/
theorem mainOnArgs_total (env : Env) (args : List String) :
    ∃ run, mainOnArgs env args = some run := by
  obtain ⟨result, hresult⟩ :=
    parseLoop_total (args.length + 1)
      { registeredFlags env.ImportedFlags with args := args } (by simp)
  unfold mainOnArgs Parse
  rw [hresult]
  cases result with
  | error err => exact ⟨_, rfl⟩
  | ok f => exact ⟨_, rfl⟩

theorem lastValue_append (pick : FlagArg → Bool) (initial : String)
    (xs ys : List FlagArg) :
    lastValue pick initial (xs ++ ys) = lastValue pick (lastValue pick initial xs) ys := by
  induction xs generalizing initial with
  | nil => rfl
  | cons x xs ih => exact ih _

theorem lastValue_of_none (pick : FlagArg → Bool) (initial : String) (xs : List FlagArg)
    (hnone : ∀ x ∈ xs, pick x = false) : lastValue pick initial xs = initial := by
  induction xs generalizing initial with
  | nil => rfl
  | cons x xs ih =>
    have hx := hnone x (by simp)
    simp only [lastValue, hx, Bool.false_eq_true, if_false]
    exact ih initial (fun y hy => hnone y (List.mem_cons_of_mem _ hy))

theorem lastValue_of_last (pick : FlagArg → Bool) (initial : String)
    (before after : List FlagArg) (x : FlagArg) (hx : pick x = true)
    (hafter : ∀ y ∈ after, pick y = false) :
    lastValue pick initial (before ++ x :: after) = x.value := by
  rw [lastValue_append]
  simp only [lastValue, hx, if_true]
  exact lastValue_of_none pick x.value after hafter

theorem flagNameOK_data (name : String) (hok : flagNameOK name = true) :
    ∃ n0 ns, name.data = n0 :: ns ∧ n0 ≠ '-' ∧ n0 ≠ '=' ∧ '=' ∉ ns := by
  unfold flagNameOK at hok
  cases hd : name.data with
  | nil => simp [hd] at hok
  | cons n0 ns =>
    simp only [hd, Bool.and_eq_true, decide_eq_true_eq] at hok
    exact ⟨n0, ns, rfl, hok.1.1, hok.1.2, hok.2⟩

/-- Which variable a registered name writes to. -/
theorem set_of_lookup (imported : List String)
    (hclash : ∀ name ∈ ["namespace", "ingressname", "n", "i"], name ∉ imported)
    (x : FlagArg) (p : FlagVar)
    (hp : (registeredFlags imported).formal.lookup x.name = some p)
    (f : FlagSet) (value : String) :
    (f.Set p value).nsFlag = (if x.isNamespace then value else f.nsFlag) ∧
    (f.Set p value).ingressName = (if x.isIngressName then value else f.ingressName) := by
  obtain ⟨h1, h2, h3, h4⟩ := lookup_program_flags imported hclash
  rcases lookup_registered imported x.name p hp with rfl | ⟨rfl, hn | hn⟩ | ⟨rfl, hn | hn⟩
  · have hns : x.isNamespace = false := by
      simp only [FlagArg.isNamespace, Bool.or_eq_false_iff, decide_eq_false_iff_not]
      constructor <;> intro hname <;> rw [hname] at hp
      · rw [h1] at hp; cases hp
      · rw [h3] at hp; cases hp
    have hing : x.isIngressName = false := by
      simp only [FlagArg.isIngressName, Bool.or_eq_false_iff, decide_eq_false_iff_not]
      constructor <;> intro hname <;> rw [hname] at hp
      · rw [h2] at hp; cases hp
      · rw [h4] at hp; cases hp
    simp [FlagSet.Set, hns, hing]
  · simp [FlagSet.Set, FlagArg.isNamespace, FlagArg.isIngressName, hn]
  · simp [FlagSet.Set, FlagArg.isNamespace, FlagArg.isIngressName, hn]
  · simp [FlagSet.Set, FlagArg.isNamespace, FlagArg.isIngressName, hn]
  · simp [FlagSet.Set, FlagArg.isNamespace, FlagArg.isIngressName, hn]

/-- One step of the parser on a registered flag, however it is written. -/
theorem parseOne_flag (imported : List String) (f : FlagSet) (x : FlagArg)
    (more : List String)
    (hclash : ∀ name ∈ ["namespace", "ingressname", "n", "i"], name ∉ imported)
    (hformal : f.formal = (registeredFlags imported).formal)
    (hok : flagNameOK x.name = true)
    (hreg : (registeredFlags imported).formal.lookup x.name ≠ none) :
    parseOne { f with args := x.render ++ more } =
      .ok (true,
        { nsFlag := if x.isNamespace then x.value else f.nsFlag
          ingressName := if x.isIngressName then x.value else f.ingressName
          formal := f.formal
          actual := f.actual ++ [x.name]
          args := more }) := by
  obtain ⟨n0, ns, hdata, h1, h2, h3⟩ := flagNameOK_data x.name hok
  cases hp : (registeredFlags imported).formal.lookup x.name with
  | none => exact absurd hp hreg
  | some p =>
    obtain ⟨g1, g2⟩ := set_of_lookup imported hclash x p hp f x.value
    have hset : ∀ (more1 : List String) (actual1 : List String),
        ({ f.Set p x.value with args := more1, actual := actual1 } : FlagSet) =
          { nsFlag := if x.isNamespace then x.value else f.nsFlag
            ingressName := if x.isIngressName then x.value else f.ingressName
            formal := f.formal
            actual := actual1
            args := more1 } := by
      intro more1 actual1
      rw [← g1, ← g2]
      cases p <;> rfl
    cases hj : x.joined with
    | false =>
      have h := parseOne_separate f x.twoDashes x.name x.value more n0 ns p hdata h1 h2 h3
        (by rw [hformal]; exact hp)
      rw [hset] at h
      simpa [FlagArg.render, hj] using h
    | true =>
      have h := parseOne_joined f x.twoDashes x.name x.value more n0 ns p hdata h1 h2 h3
        (by rw [hformal]; exact hp)
      rw [hset] at h
      simpa [FlagArg.render, hj] using h


/-- The parser stops, without touching the variables, where the flags end. -/
theorem parseOne_end (f : FlagSet) (hends : endsFlags f.args = true) :
    ∃ left, parseOne f = .ok (false, { f with args := left }) := by
  unfold parseOne
  cases hargs : f.args with
  | nil =>
    refine ⟨[], ?_⟩
    cases f
    simp_all
  | cons s rest =>
    rw [hargs] at hends
    simp only [endsFlags] at hends
    simp only [String.toList]
    cases hd : s.data with
    | nil =>
      refine ⟨s :: rest, ?_⟩
      cases f
      simp_all
    | cons c0 cs =>
      cases cs with
      | nil =>
        refine ⟨s :: rest, ?_⟩
        cases f
        simp_all
      | cons c1 cs1 =>
        simp only [hd, Bool.or_eq_true, Bool.and_eq_true, decide_eq_true_eq] at hends
        by_cases hc0 : c0 ≠ '-'
        · refine ⟨s :: rest, ?_⟩
          simp only [if_pos hc0]
          cases f
          simp_all
        · rcases hends with h | h
          · exact absurd h hc0
          · refine ⟨rest, ?_⟩
            simp only [if_neg hc0, if_pos h]

/-- The parser on a command line made of registered flags, written in any
form, and then arguments that end the flags: every flag is consumed, and the
last flag of each kind gives the value of its variable. -/
theorem parseLoop_flags (imported : List String)
    (hclash : ∀ name ∈ ["namespace", "ingressname", "n", "i"], name ∉ imported)
    (flags : List FlagArg) (rest : List String)
    (hflags : ∀ x ∈ flags, flagNameOK x.name = true ∧
      (registeredFlags imported).formal.lookup x.name ≠ none)
    (hrest : endsFlags rest = true)
    (f : FlagSet) (fuel : Nat)
    (hformal : f.formal = (registeredFlags imported).formal)
    (hargs : f.args = commandLine flags rest)
    (hfuel : (commandLine flags rest).length < fuel) :
    ∃ left, parseLoop fuel f = some (.ok
      { nsFlag := lastValue FlagArg.isNamespace f.nsFlag flags
        ingressName := lastValue FlagArg.isIngressName f.ingressName flags
        formal := f.formal
        actual := f.actual ++ flags.map (fun x => x.name)
        args := left }) := by
  induction flags generalizing f fuel with
  | nil =>
    cases fuel with
    | zero => omega
    | succ n =>
      simp only [commandLine, List.map_nil, List.flatten_nil, List.nil_append] at hargs
      obtain ⟨left, hone⟩ := parseOne_end f (by rw [hargs]; exact hrest)
      refine ⟨left, ?_⟩
      unfold parseLoop
      simp only [hone, lastValue, List.map_nil, List.append_nil]
  | cons x xs ih =>
    cases fuel with
    | zero => omega
    | succ n =>
      have hx := hflags x (by simp)
      have hcl : commandLine (x :: xs) rest = x.render ++ commandLine xs rest := by
        simp [commandLine]
      have hf : f = { f with args := x.render ++ commandLine xs rest } := by
        cases f
        simp_all
      have hone := parseOne_flag imported f x (commandLine xs rest) hclash hformal hx.1 hx.2
      rw [← hf] at hone
      have hlen : (commandLine xs rest).length < n := by
        rw [hcl] at hfuel
        have hpos : 0 < x.render.length := by
          unfold FlagArg.render
          split <;> simp
        simp only [List.length_append] at hfuel
        omega
      obtain ⟨left, hih⟩ := ih (fun y hy => hflags y (List.mem_cons_of_mem _ hy))
        { nsFlag := if x.isNamespace then x.value else f.nsFlag
          ingressName := if x.isIngressName then x.value else f.ingressName
          formal := f.formal
          actual := f.actual ++ [x.name]
          args := commandLine xs rest } n hformal rfl hlen
      refine ⟨left, ?_⟩
      unfold parseLoop
      simp only [hone]
      rw [hih]
      simp [lastValue]

theorem splitValue_inv (ns : List Char) :
    '=' ∉ (splitValue ns).1 ∧
    (∀ v, (splitValue ns).2 = some v → ns = (splitValue ns).1 ++ '=' :: v) ∧
    ((splitValue ns).2 = none → ns = (splitValue ns).1) := by
  induction ns with
  | nil => simp [splitValue]
  | cons c cs ih =>
    by_cases hc : c = '='
    · subst hc
      simp [splitValue]
    · obtain ⟨h1, h2, h3⟩ := ih
      simp only [splitValue, if_neg hc]
      refine ⟨?_, ?_, ?_⟩
      · intro hmem
        rcases List.mem_cons.1 hmem with h | h
        · exact hc h.symm
        · exact h1 h
      · intro v hv
        rw [List.cons_append, ← h2 v hv]
      · intro hnone
        rw [← h3 hnone]


theorem parseValue_inv (f f1 : FlagSet) (rest : List String) (name : String)
    (p : FlagVar) (joined : Option (List Char)) (seen : Bool)
    (h : parseValue f rest name p joined = .ok (seen, f1)) :
    (∃ v, joined = some v ∧ f1.args = rest) ∨
    (joined = none ∧ ∃ value, rest = value :: f1.args) := by
  unfold parseValue at h
  split at h
  · simp only [Except.ok.injEq, Prod.mk.injEq] at h
    obtain ⟨-, rfl⟩ := h
    exact Or.inl ⟨_, rfl, rfl⟩
  · simp only [Except.ok.injEq, Prod.mk.injEq] at h
    obtain ⟨-, rfl⟩ := h
    exact Or.inr ⟨rfl, _, rfl⟩
  · cases h

theorem parseName_inv (f f1 : FlagSet) (s : String) (rest : List String)
    (name : List Char) (seen : Bool)
    (h : parseName f s rest name = .ok (seen, f1)) :
    ∃ n0 ns, name = n0 :: ns ∧ n0 ≠ '-' ∧ n0 ≠ '=' ∧
      f.formal.lookup (String.mk (n0 :: (splitValue ns).1)) ≠ none ∧
      ((∃ v, (splitValue ns).2 = some v ∧ f1.args = rest) ∨
       ((splitValue ns).2 = none ∧ ∃ value, rest = value :: f1.args)) := by
  unfold parseName at h
  split at h
  · cases h
  · rename_i n0 ns
    by_cases hbad : n0 = '-' ∨ n0 = '='
    · rw [if_pos hbad] at h
      cases h
    · rw [if_neg hbad] at h
      simp only [not_or] at hbad
      cases hlookup : f.formal.lookup (String.mk (n0 :: (splitValue ns).1)) with
      | none =>
        simp only [hlookup] at h
        split_ifs at h
      | some p =>
        simp only [hlookup] at h
        refine ⟨n0, ns, rfl, hbad.1, hbad.2, ?_, parseValue_inv _ _ _ _ _ _ _ h⟩
        intro hnone
        rw [hlookup] at hnone
        cases hnone

/-- A step of the parser that sees a flag has read one registered flag, written
in one of its forms, off the front of the arguments. -/
theorem parseOne_inv (f f1 : FlagSet) (h : parseOne f = .ok (true, f1)) :
    ∃ x : FlagArg, f.args = x.render ++ f1.args ∧ flagNameOK x.name = true ∧
      f.formal.lookup x.name ≠ none := by
  unfold parseOne at h
  split at h
  · cases h
  · rename_i s rest hargs
    split at h
    · rename_i c0 c1 cs hs
      by_cases hc0 : c0 ≠ '-'
      · rw [if_pos hc0] at h
        cases h
      · rw [if_neg hc0] at h
        simp only [ne_eq, not_not] at hc0
        by_cases hterm : c1 = '-' ∧ cs = []
        · rw [if_pos hterm] at h
          cases h
        · rw [if_neg hterm] at h
          obtain ⟨n0, ns, hname, h1, h2, hlookup, hvalue⟩ := parseName_inv _ _ _ _ _ _ h
          obtain ⟨g1, g2, g3⟩ := splitValue_inv ns
          have hdata : s.data = '-' :: c1 :: cs := by
            rw [← hc0]
            exact hs
          have hok : flagNameOK (String.mk (n0 :: (splitValue ns).1)) = true := by
            simp [flagNameOK, h1, h2, g1]
          have hs2 : s.data = (dashes (decide (c1 = '-'))).data ++ n0 :: ns := by
            rw [hdata]
            by_cases hc1 : c1 = '-'
            · simp only [hc1, if_true] at hname
              simp [dashes, hc1, hname]
            · simp only [hc1, if_false] at hname
              simp [dashes, hc1, hname]
          rcases hvalue with ⟨v, hv, hrest⟩ | ⟨hnone, value, hrest⟩
          · refine ⟨⟨decide (c1 = '-'), String.mk (n0 :: (splitValue ns).1), true,
              String.mk v⟩, ?_, hok, hlookup⟩
            rw [hargs, hrest]
            simp only [FlagArg.render, if_true, List.singleton_append, List.cons.injEq,
              and_true]
            apply String.ext
            have hns := g2 v hv
            rw [hs2]
            simpa [String.data_append] using hns
          · refine ⟨⟨decide (c1 = '-'), String.mk (n0 :: (splitValue ns).1), false,
              value⟩, ?_, hok, hlookup⟩
            rw [hargs, hrest]
            simp only [FlagArg.render, Bool.false_eq_true, if_false, List.cons_append,
              List.nil_append, List.cons.injEq, and_true]
            apply String.ext
            have hns := g3 hnone
            rw [hs2]
            simpa [String.data_append] using hns
    · cases h


/-- A step of the parser that sees no flag stands where the flags end. -/
theorem parseOne_stop (f f1 : FlagSet) (h : parseOne f = .ok (false, f1)) :
    endsFlags f.args = true := by
  unfold parseOne at h
  split at h
  · rename_i hargs
    rw [hargs]
    rfl
  · rename_i s rest hargs
    rw [hargs]
    simp only [endsFlags]
    split at h
    · rename_i c0 c1 cs hs
      have hdata : s.data = c0 :: c1 :: cs := hs
      simp only [hdata, Bool.or_eq_true, Bool.and_eq_true, decide_eq_true_eq]
      by_cases hc0 : c0 ≠ '-'
      · exact Or.inl hc0
      · rw [if_neg hc0] at h
        by_cases hterm : c1 = '-' ∧ cs = []
        · exact Or.inr hterm
        · rw [if_neg hterm] at h
          obtain ⟨hseen, -⟩ := parseName_cases _ _ _ _ _ _ h
          cases hseen
    · rename_i hs
      cases hd : s.data with
      | nil => rfl
      | cons c0 cs =>
        cases cs with
        | nil => rfl
        | cons c1 cs1 => exact absurd hd (hs c0 c1 cs1)

/-- Every command line that `flag.Parse()` accepts is made of registered flags,
each written in one of its forms, and then arguments that end the flags. -/
theorem parseLoop_decompose (fuel : Nat) (f f1 : FlagSet)
    (h : parseLoop fuel f = some (.ok f1)) :
    ∃ flags rest, f.args = commandLine flags rest ∧ endsFlags rest = true ∧
      ∀ x ∈ flags, flagNameOK x.name = true ∧ f.formal.lookup x.name ≠ none := by
  induction fuel generalizing f with
  | zero => simp [parseLoop] at h
  | succ n ih =>
    unfold parseLoop at h
    cases hone : parseOne f with
    | error err => simp [hone] at h
    | ok step =>
      obtain ⟨seen, f2⟩ := step
      cases seen with
      | false =>
        exact ⟨[], f.args, by simp [commandLine], parseOne_stop f f2 hone, by simp⟩
      | true =>
        simp only [hone] at h
        obtain ⟨flags, rest, hargs, hends, hflags⟩ := ih f2 h
        obtain ⟨x, hx, hok, hreg⟩ := parseOne_inv f f2 hone
        have hformal : f2.formal = f.formal := by
          rcases parseOne_cases f f2 true hone with ⟨hfalse, -⟩ | ⟨-, -, hformal, -⟩
          · cases hfalse
          · exact hformal
        refine ⟨x :: flags, rest, ?_, hends, ?_⟩
        · rw [hx, hargs]
          simp [commandLine]
        · intro y hy
          rcases List.mem_cons.1 hy with rfl | hy
          · exact ⟨hok, hreg⟩
          · rw [← hformal]
            exact hflags y hy

/-- Lines 25-27: with an empty namespace or an empty Ingress name the run is the
usage error, and no call is made. -/
theorem main_usage (env : Env) (nsFlag ingressName : String)
    (hempty : nsFlag = "" ∨ ingressName = "") :
    main env nsFlag ingressName = { calls := [], exit := .fatal (usageMessage env) } := by
  unfold main
  rw [if_pos hempty]
  rfl

/-- The lookup and the create call of a run are made in the namespace of the
namespace flag. -/
theorem main_namespace_used (env : Env) (nsFlag ingressName : String) (call : Call)
    (hmem : call ∈ (main env nsFlag ingressName).calls) (used : String)
    (hused : call.namespaceUsed = some used) : used = nsFlag := by
  have hfinish : ∀ c : Call, call = c → (∀ u, c.namespaceUsed = some u → u = nsFlag) →
      used = nsFlag := by
    intro c hc hu
    rw [hc] at hused
    exact hu used hused
  rcases main_calls_shape env nsFlag ingressName with h | h | h | h | h | ⟨vs, h⟩
  · rw [h] at hmem
    cases hmem
  · rw [h] at hmem
    simp only [List.mem_singleton] at hmem
    exact hfinish _ hmem (by simp [Call.namespaceUsed])
  · rw [h] at hmem
    simp only [List.mem_cons, List.mem_singleton, List.not_mem_nil, or_false] at hmem
    rcases hmem with hc | hc <;> exact hfinish _ hc (by simp [Call.namespaceUsed])
  · rw [h] at hmem
    simp only [List.mem_cons, List.mem_singleton, List.not_mem_nil, or_false] at hmem
    rcases hmem with hc | hc | hc <;> exact hfinish _ hc (by simp [Call.namespaceUsed])
  · rw [h] at hmem
    simp only [List.mem_cons, List.mem_singleton, List.not_mem_nil, or_false] at hmem
    rcases hmem with hc | hc | hc | hc <;>
      exact hfinish _ hc (by simp [Call.namespaceUsed])
  · rw [h] at hmem
    simp only [List.mem_cons, List.mem_singleton, List.not_mem_nil, or_false] at hmem
    rcases hmem with hc | hc | hc | hc | hc <;>
      exact hfinish _ hc (by simp [Call.namespaceUsed])

/-- With both flag values non-empty the run goes past the usage check: the
configuration is loaded, and once configuration and clients are available
the Ingress is looked up in the namespace of the namespace flag. -/
theorem main_past_usage (env : Env) (nsFlag ingressName : String)
    (hns : nsFlag ≠ "") (hname : ingressName ≠ "") :
    Call.GetConfig ∈ (main env nsFlag ingressName).calls ∧
    (env.GetConfig = .ok () → env.KubernetesNewForConfig = .ok () →
      env.IstioNewForConfig = .ok () →
      Call.IngressesGet nsFlag ingressName ∈ (main env nsFlag ingressName).calls) := by
  have husage : ¬ (nsFlag = "" ∨ ingressName = "") := by simp [hns, hname]
  constructor
  · cases h1 : env.GetConfig with
    | error err => simp [main, husage, h1]
    | ok _ =>
    cases h2 : env.KubernetesNewForConfig with
    | error err => simp [main, husage, h1, h2]
    | ok _ =>
    cases h3 : env.IstioNewForConfig with
    | error err => simp [main, husage, h1, h2, h3]
    | ok _ =>
    cases hget : env.IngressesGet nsFlag ingressName with
    | error err => simp [main, husage, h1, h2, h3, hget]
    | ok ingress =>
    cases hvs : virtualService ingress with
    | error p => simp [main, husage, h1, h2, h3, hget, hvs]
    | ok vs =>
      cases hcr : env.VirtualServicesCreate nsFlag vs with
      | error err => simp [main, husage, h1, h2, h3, hget, hvs, hcr]
      | ok _ => simp [main, husage, h1, h2, h3, hget, hvs, hcr]
  · intro h1 h2 h3
    cases hget : env.IngressesGet nsFlag ingressName with
    | error err => simp [main, husage, h1, h2, h3, hget]
    | ok ingress =>
    cases hvs : virtualService ingress with
    | error p => simp [main, husage, h1, h2, h3, hget, hvs]
    | ok vs =>
      cases hcr : env.VirtualServicesCreate nsFlag vs with
      | error err => simp [main, husage, h1, h2, h3, hget, hvs, hcr]
      | ok _ => simp [main, husage, h1, h2, h3, hget, hvs, hcr]

/-! ## C12: no Ingress name, no API call -/

/-- C12, counterexample: on the command line `-h` no Ingress name is given, no
call is made, and the process does not end with a non-zero status:
`flag.Parse()` meets the undefined flag `h`, reports `ErrHelp` and exits with
status 0. -/
theorem C12_help_exits_with_status_zero :
    (∀ f, Parse (registeredFlags ["kubeconfig"]) ["-h"] = some (.ok f) →
      ("i" ∉ f.actual ∧ "ingressname" ∉ f.actual) ∨ f.ingressName = "") ∧
    mainOnArgs (clusterWith shopIngress) ["-h"] =
      some { calls := [], exit := .flagExit .help } ∧
    (Exit.flagExit .help).status = 0 ∧
    ¬ ∃ run, mainOnArgs (clusterWith shopIngress) ["-h"] = some run ∧
      run.exit.status ≠ 0 := by
  have hrun : mainOnArgs (clusterWith shopIngress) ["-h"] =
      some { calls := [], exit := .flagExit .help } := by decide
  refine ⟨?_, hrun, rfl, ?_⟩
  · intro f hf
    have hparse : Parse (registeredFlags ["kubeconfig"]) ["-h"] = some (.error .help) := by decide
    rw [hparse] at hf
    cases hf
  · rintro ⟨run, hsome, hstatus⟩
    rw [hrun] at hsome
    cases hsome
    exact hstatus rfl

/-- C12 (amended): on every command line on which the Ingress name is missing
(neither `-i` nor `-ingressname` is set) or is the empty string, the program
ends before any API interaction, with no call at all, and `flag.Parse()`
decides how: when it accepts the command line, the program ends with the usage
error of line 26 and exit status 1; when it rejects the command line with an
error, the program ends inside `flag.Parse()` with that error, with exit
status 2 unless the error is `ErrHelp`, raised by `-h` or `-help`, which the
program does not define, and then with exit status 0. -/
theorem C12_no_call_without_ingress_name (env : Env) (args : List String)
    (hmissing : ∀ f, Parse (registeredFlags env.ImportedFlags) args = some (.ok f) →
      ("i" ∉ f.actual ∧ "ingressname" ∉ f.actual) ∨ f.ingressName = "") :
    ∃ run, mainOnArgs env args = some run ∧ run.calls = [] ∧
      (∃ result, Parse (registeredFlags env.ImportedFlags) args = some result) ∧
      (∀ f, Parse (registeredFlags env.ImportedFlags) args = some (.ok f) →
        run.exit = .fatal ("Usage: " ++ env.Args0 ++
          " --namespace <namespace> --ingressname <ingressname>") ∧
        run.exit.status = 1) ∧
      (∀ err, Parse (registeredFlags env.ImportedFlags) args = some (.error err) →
        run.exit = .flagExit err ∧
        (err ≠ .help → run.exit.status = 2) ∧
        (err = .help → run.exit.status = 0)) ∧
      ((run.exit = .fatal (usageMessage env) ∧ run.exit.status = 1) ∨
       (∃ err, err ≠ .help ∧ run.exit = .flagExit err ∧ run.exit.status = 2) ∨
       (run.exit = .flagExit .help ∧ run.exit.status = 0)) ∧
      (run.exit.status = 0 ↔
        Parse (registeredFlags env.ImportedFlags) args = some (.error .help)) := by
  obtain ⟨run, hrun⟩ := mainOnArgs_total env args
  refine ⟨run, hrun, ?_⟩
  rcases mainOnArgs_cases env args run hrun with ⟨err, hparse, rfl⟩ | ⟨f, hparse, rfl⟩
  · refine ⟨rfl, ⟨_, hparse⟩, ?_, ?_, ?_, ?_⟩
    · intro f hf
      rw [hparse] at hf
      cases hf
    · intro err1 herr
      rw [hparse] at herr
      simp only [Option.some.injEq, Except.error.injEq] at herr
      subst herr
      refine ⟨rfl, ?_, ?_⟩
      · intro hne
        cases err <;> first | rfl | exact absurd rfl hne
      · intro heq
        subst heq
        rfl
    · cases err with
      | help => exact Or.inr (Or.inr ⟨rfl, rfl⟩)
      | badSyntax arg => exact Or.inr (Or.inl ⟨_, by simp, rfl, rfl⟩)
      | notDefined name => exact Or.inr (Or.inl ⟨_, by simp, rfl, rfl⟩)
      | needsArgument name => exact Or.inr (Or.inl ⟨_, by simp, rfl, rfl⟩)
    · rw [hparse]
      cases err <;> simp [Exit.status]
  · have hempty : f.ingressName = "" := by
      rcases hmissing f hparse with hunset | hempty
      · exact (Parse_unset env.ImportedFlags args f hparse).1 hunset
      · exact hempty
    rw [main_usage env f.nsFlag f.ingressName (Or.inr hempty), hparse]
    refine ⟨rfl, ⟨_, rfl⟩, fun _ _ => ⟨rfl, rfl⟩, ?_, Or.inl ⟨rfl, rfl⟩, by simp [Exit.status]⟩
    intro err herr
    cases herr

/-- C12, witness: the command line `-n prod` gives no Ingress name and ends in
the usage error. -/
theorem C12_no_call_without_ingress_name_witness :
    (∀ f, Parse (registeredFlags ["kubeconfig"]) ["-n", "prod"] = some (.ok f) →
      ("i" ∉ f.actual ∧ "ingressname" ∉ f.actual) ∨ f.ingressName = "") ∧
    ∃ run, mainOnArgs (clusterWith shopIngress) ["-n", "prod"] = some run ∧
      run.calls = [] ∧
      (∃ result, Parse (registeredFlags ["kubeconfig"]) ["-n", "prod"] = some result) ∧
      (∀ f, Parse (registeredFlags ["kubeconfig"]) ["-n", "prod"] = some (.ok f) →
        run.exit = .fatal ("Usage: " ++ "ingress2vs" ++
          " --namespace <namespace> --ingressname <ingressname>") ∧
        run.exit.status = 1) ∧
      (∀ err, Parse (registeredFlags ["kubeconfig"]) ["-n", "prod"] = some (.error err) →
        run.exit = .flagExit err ∧
        (err ≠ .help → run.exit.status = 2) ∧
        (err = .help → run.exit.status = 0)) ∧
      ((run.exit = .fatal (usageMessage (clusterWith shopIngress)) ∧ run.exit.status = 1) ∨
       (∃ err, err ≠ .help ∧ run.exit = .flagExit err ∧ run.exit.status = 2) ∨
       (run.exit = .flagExit .help ∧ run.exit.status = 0)) ∧
      (run.exit.status = 0 ↔
        Parse (registeredFlags ["kubeconfig"]) ["-n", "prod"] = some (.error .help)) :=
  have hmissing : ∀ f, Parse (registeredFlags ["kubeconfig"]) ["-n", "prod"] = some (.ok f) →
      ("i" ∉ f.actual ∧ "ingressname" ∉ f.actual) ∨ f.ingressName = "" := by
    intro f hf
    have hparse : Parse (registeredFlags ["kubeconfig"]) ["-n", "prod"] =
        some (.ok { registeredFlags ["kubeconfig"] with nsFlag := "prod", actual := ["n"] }) := by
      decide
    rw [hparse] at hf
    simp only [Option.some.injEq, Except.ok.injEq] at hf
    subst hf
    exact Or.inr rfl
  ⟨hmissing, C12_no_call_without_ingress_name (clusterWith shopIngress) ["-n", "prod"] hmissing⟩

/-! ## C13: the namespace flag -/

/-- C13: on every command line the program either ends inside `flag.Parse()`
without any call, or is the run of lines 25-104 on the two flag variables, in
which every lookup and create call is made in the namespace variable and, with
both variables non-empty, the run is past the usage check and looks the
Ingress up in that namespace once configuration and clients are available.
`flag.Parse()` accepts exactly the command lines made of registered flags,
each written with one or two dashes and with its value after `=` or as the
next argument, followed by arguments that end the flags.  On such a command
line the namespace variable is "default" when neither `--namespace` nor `-n`
is among the flags, and is the value of a namespace flag that no other
namespace flag follows. -/
theorem C13_namespace_default_and_given (env : Env) (args : List String) :
    ∃ run, mainOnArgs env args = some run ∧
      (∀ err, Parse (registeredFlags env.ImportedFlags) args = some (.error err) →
        run = { calls := [], exit := .flagExit err }) ∧
      (∀ f, Parse (registeredFlags env.ImportedFlags) args = some (.ok f) →
        run = main env f.nsFlag f.ingressName ∧
        (∀ call ∈ run.calls, ∀ used, call.namespaceUsed = some used → used = f.nsFlag) ∧
        (f.nsFlag ≠ "" → f.ingressName ≠ "" →
          Call.GetConfig ∈ run.calls ∧
          (env.GetConfig = .ok () → env.KubernetesNewForConfig = .ok () →
            env.IstioNewForConfig = .ok () →
            Call.IngressesGet f.nsFlag f.ingressName ∈ run.calls)) ∧
        ("n" ∉ f.actual → "namespace" ∉ f.actual → f.nsFlag = "default") ∧
        ∃ flags rest, args = commandLine flags rest ∧ endsFlags rest = true ∧
          ∀ x ∈ flags, flagNameOK x.name = true ∧
            (registeredFlags env.ImportedFlags).formal.lookup x.name ≠ none) ∧
      (∀ flags rest, args = commandLine flags rest → endsFlags rest = true →
        (∀ x ∈ flags, flagNameOK x.name = true ∧
          (registeredFlags env.ImportedFlags).formal.lookup x.name ≠ none) →
        ∃ f, Parse (registeredFlags env.ImportedFlags) args = some (.ok f) ∧
          f.actual = flags.map (fun x => x.name) ∧
          f.ingressName = lastValue FlagArg.isIngressName "" flags ∧
          f.nsFlag = lastValue FlagArg.isNamespace "default" flags ∧
          ((∀ x ∈ flags, x.isNamespace = false) → f.nsFlag = "default") ∧
          (∀ before x after, flags = before ++ x :: after → x.isNamespace = true →
            (∀ y ∈ after, y.isNamespace = false) → f.nsFlag = x.value)) := by
  obtain ⟨run, hrun⟩ := mainOnArgs_total env args
  refine ⟨run, hrun, ?_, ?_, ?_⟩
  · intro err herr
    rcases mainOnArgs_cases env args run hrun with ⟨err1, hparse, rfl⟩ | ⟨f, hparse, rfl⟩
    · rw [hparse] at herr
      simp only [Option.some.injEq, Except.error.injEq] at herr
      rw [herr]
    · rw [hparse] at herr
      cases herr
  · intro f hf
    have hrunf : run = main env f.nsFlag f.ingressName := by
      rcases mainOnArgs_cases env args run hrun with ⟨err1, hparse, rfl⟩ | ⟨g, hparse, rfl⟩
      · rw [hparse] at hf
        cases hf
      · rw [hparse] at hf
        simp only [Option.some.injEq, Except.ok.injEq] at hf
        rw [hf]
    subst hrunf
    refine ⟨rfl, ?_, ?_, ?_, ?_⟩
    · intro call hmem used hused
      exact main_namespace_used env _ _ call hmem used hused
    · intro hns hname
      exact main_past_usage env _ _ hns hname
    · intro hn hnamespace
      exact (Parse_unset env.ImportedFlags args f hf).2 ⟨hn, hnamespace⟩
    · exact parseLoop_decompose _ _ f hf
  · intro flags rest hargs hends hflags
    obtain ⟨left, hparse⟩ := parseLoop_flags env.ImportedFlags env.ImportedDistinct flags rest
      hflags hends { registeredFlags env.ImportedFlags with args := args }
      (args.length + 1) rfl hargs (by rw [← hargs]; omega)
    refine ⟨_, hparse, ?_, rfl, rfl, ?_, ?_⟩
    · show (registeredFlags env.ImportedFlags).actual ++ _ = _
      rfl
    · exact lastValue_of_none _ _ _
    · intro before x after hsplit hx hafter
      show lastValue FlagArg.isNamespace "default" flags = x.value
      rw [hsplit]
      exact lastValue_of_last _ _ before after x hx hafter

/-- C13, witness: on the command line
`-n prod -kubeconfig /k --ingressname=shop -- -n other` the flags end at `--`,
the namespace flag is given once, with the value "prod", and the Ingress
"shop" is looked up in "prod". -/
theorem C13_namespace_default_and_given_witness :
    commandLine
      [FlagArg.mk false "n" false "prod", FlagArg.mk false "kubeconfig" false "/k",
        FlagArg.mk true "ingressname" true "shop"] ["--", "-n", "other"] =
      ["-n", "prod", "-kubeconfig", "/k", "--ingressname=shop", "--", "-n", "other"] ∧
    ∃ run, mainOnArgs (clusterWith shopIngress)
        ["-n", "prod", "-kubeconfig", "/k", "--ingressname=shop", "--", "-n", "other"] =
        some run ∧
      run = main (clusterWith shopIngress) "prod" "shop" ∧
      Call.IngressesGet "prod" "shop" ∈ run.calls ∧
      ∀ call ∈ run.calls, ∀ used, call.namespaceUsed = some used → used = "prod" := by
  refine ⟨by decide, ?_⟩
  obtain ⟨run, hrun, -, hok, hgiven⟩ := C13_namespace_default_and_given
    (clusterWith shopIngress)
    ["-n", "prod", "-kubeconfig", "/k", "--ingressname=shop", "--", "-n", "other"]
  obtain ⟨f, hparse, -, hname, -, -, hlast⟩ := hgiven
    [FlagArg.mk false "n" false "prod", FlagArg.mk false "kubeconfig" false "/k",
      FlagArg.mk true "ingressname" true "shop"] ["--", "-n", "other"]
    (by decide) (by decide) (by decide)
  have hns : f.nsFlag = "prod" :=
    hlast [] (FlagArg.mk false "n" false "prod")
      [FlagArg.mk false "kubeconfig" false "/k", FlagArg.mk true "ingressname" true "shop"]
      rfl (by decide) (by decide)
  have hing : f.ingressName = "shop" := hname.trans (by decide)
  obtain ⟨hmain, hused, hpast, -, -⟩ := hok f hparse
  rw [hns] at hused
  rw [hns, hing] at hmain hpast
  exact ⟨run, hrun, hmain, (hpast (by decide) (by decide)).2 rfl rfl rfl, hused⟩

end Ingress2VS
